import Mathlib

/-!
Verification of the relational-index core of the Instagram-clone service
(`src/storage.py`, `src/routers/*.py`).

The Python service keeps all state in module-level dicts and sets
(`storage.py`).  We embed that state shallowly:

* a Python dict is an association list `List (String × α)` in insertion
  order (Python 3.7+ dicts preserve insertion order); keys are unique by
  dict semantics, so removal by key removes every entry with that key;
* a Python set is a duplicate-free `List String`; `set.add` appends when the
  element is absent, `set.discard` filters it out;
* `datetime.utcnow().isoformat()` timestamps are modelled as `Nat` values
  supplied by the caller (ISO-8601 strings compare chronologically);
* generated UUIDs are modelled as `String` parameters that are fresh where
  the uuid4 generator guarantees process-wide uniqueness;
* each router handler becomes a function from arguments and state to an
  `Except ApiError` outcome paired with the post-state (an HTTP error raise
  carries whatever state existed at the raise).
-/

/-- Lookup of a key in an insertion-ordered dict (first matching entry). -/
def dictGet {α : Type} : List (String × α) → String → Option α
  | [], _ => none
  | (k, v) :: rest, key => if k = key then some v else dictGet rest key

/-- Lookup with a default, matching Python's `d.get(k, dflt)`. -/
def dictGetD {α : Type} (d : List (String × α)) (key : String) (dflt : α) : α :=
  (dictGet d key).getD dflt

/-- `d[k] = v`: replace the value at an existing key in place, else append. -/
def dictSet {α : Type} : List (String × α) → String → α → List (String × α)
  | [], key, v => [(key, v)]
  | (k, w) :: rest, key, v =>
      if k = key then (k, v) :: rest else (k, w) :: dictSet rest key v

/-- `d.pop(k, ...)`: remove the key.  Python dict keys are unique, so
removing every entry with the key is the same operation. -/
def dictPop {α : Type} : List (String × α) → String → List (String × α)
  | [], _ => []
  | (k, v) :: rest, key =>
      if k = key then dictPop rest key else (k, v) :: dictPop rest key

/-- `d.setdefault(k, v0)`: insert `v0` at the end if the key is absent. -/
def dictSetdefault {α : Type} (d : List (String × α)) (key : String) (v0 : α) :
    List (String × α) :=
  match dictGet d key with
  | some _ => d
  | none => d ++ [(key, v0)]

/-- Python `set.add`: append the element when it is not already a member. -/
def setAdd (s : List String) (x : String) : List String :=
  if x ∈ s then s else s ++ [x]

/-- Python `set.discard`: remove the element (sets are duplicate-free). -/
def setDiscard (s : List String) (x : String) : List String :=
  s.filter (fun y => y ≠ x)

/-- `d.setdefault(k, set()).add(x)` — the set-valued dual-index idiom used by
`follow_user`, `like_post` (via separate setdefault) and `create_post`. -/
def dictAddToSet (d : List (String × List String)) (key x : String) :
    List (String × List String) :=
  match dictGet d key with
  | some s => dictSet d key (setAdd s x)
  | none => d ++ [(key, [x])]

/-- `d.get(k, set()).discard(x)`: a no-op on the dict when the key is absent
(the discard then mutates a temporary set only). -/
def dictDiscardFromSet (d : List (String × List String)) (key x : String) :
    List (String × List String) :=
  match dictGet d key with
  | some s => dictSet d key (setDiscard s x)
  | none => d

/-- `d.setdefault(k, []).append(x)` — the comment-sequence idiom of
`add_comment`. -/
def dictAppendToList (d : List (String × List String)) (key x : String) :
    List (String × List String) :=
  match dictGet d key with
  | some l => dictSet d key (l ++ [x])
  | none => d ++ [(key, [x])]

-- ── dict/set lemmas ──────────────────────────────────────────────────────────

theorem dictGet_dictSet {α : Type} (d : List (String × α)) (k : String) (v : α)
    (k' : String) :
    dictGet (dictSet d k v) k' = if k' = k then some v else dictGet d k' := by
  induction d with
  | nil =>
    by_cases h : k' = k
    · subst h; simp [dictSet, dictGet]
    · have h2 : ¬ k = k' := fun hh => h hh.symm
      simp [dictSet, dictGet, h, h2]
  | cons e rest ih =>
    obtain ⟨k₀, w⟩ := e
    by_cases h0 : k₀ = k
    · subst h0
      by_cases h1 : k₀ = k'
      · subst h1; simp [dictSet, dictGet]
      · have h2 : ¬ k' = k₀ := fun hh => h1 hh.symm
        simp [dictSet, dictGet, h1, h2]
    · by_cases h1 : k₀ = k'
      · subst h1
        simp [dictSet, dictGet, h0]
      · simp [dictSet, dictGet, h0, h1, ih]

theorem dictGet_append {α : Type} (d e : List (String × α)) (k : String) :
    dictGet (d ++ e) k = ((dictGet d k).or (dictGet e k)) := by
  induction d with
  | nil => simp [dictGet]
  | cons hd rest ih =>
    obtain ⟨k₀, w⟩ := hd
    by_cases h : k₀ = k
    · simp [dictGet, h]
    · simp [dictGet, h, ih]

theorem dictGet_dictSetdefault {α : Type} (d : List (String × α)) (k : String)
    (v0 : α) (k' : String) :
    dictGet (dictSetdefault d k v0) k' =
      if k' = k then some ((dictGet d k).getD v0) else dictGet d k' := by
  unfold dictSetdefault
  cases h : dictGet d k with
  | some w => by_cases h' : k' = k <;> simp [h', h]
  | none =>
    rw [dictGet_append]
    by_cases h' : k' = k
    · subst h'; simp [h, dictGet]
    · have h2 : ¬ k = k' := fun hh => h' hh.symm
      simp [dictGet, h', h2]

theorem dictGet_dictPop {α : Type} (d : List (String × α)) (k k' : String) :
    dictGet (dictPop d k) k' = if k' = k then none else dictGet d k' := by
  induction d with
  | nil => simp [dictPop, dictGet]
  | cons e rest ih =>
    obtain ⟨k₀, w⟩ := e
    by_cases h0 : k₀ = k
    · subst h0
      by_cases h1 : k' = k₀
      · subst h1; simp [dictPop, dictGet, ih]
      · have h2 : ¬ k₀ = k' := fun hh => h1 hh.symm
        simp [dictPop, dictGet, h1, h2, ih]
    · by_cases h1 : k₀ = k'
      · subst h1
        simp [dictPop, dictGet, h0]
      · simp [dictPop, dictGet, h0, h1, ih]

theorem mem_setAdd (s : List String) (x y : String) :
    y ∈ setAdd s x ↔ y = x ∨ y ∈ s := by
  unfold setAdd
  by_cases h : x ∈ s
  · rw [if_pos h]
    constructor
    · exact Or.inr
    · rintro (rfl | hy)
      · exact h
      · exact hy
  · rw [if_neg h]
    simp [or_comm]

theorem nodup_setAdd (s : List String) (x : String) (h : s.Nodup) :
    (setAdd s x).Nodup := by
  unfold setAdd
  by_cases hx : x ∈ s
  · simpa [hx]
  · simp [hx, List.nodup_append, h]

theorem mem_setDiscard (s : List String) (x y : String) :
    y ∈ setDiscard s x ↔ y ∈ s ∧ y ≠ x := by
  simp [setDiscard]

theorem nodup_setDiscard (s : List String) (x : String) (h : s.Nodup) :
    (setDiscard s x).Nodup :=
  h.filter _

theorem dictGet_dictAddToSet (d : List (String × List String)) (key x k : String) :
    dictGet (dictAddToSet d key x) k =
      if k = key then some (setAdd (dictGetD d key []) x) else dictGet d k := by
  unfold dictAddToSet
  cases h : dictGet d key with
  | some s => rw [dictGet_dictSet]; simp [dictGetD, h]
  | none =>
    rw [dictGet_append]
    by_cases h' : k = key
    · subst h'; simp [h, dictGet, dictGetD, setAdd]
    · have h2 : ¬ key = k := fun hh => h' hh.symm
      simp [dictGet, h', h2]

theorem dictGet_dictDiscardFromSet (d : List (String × List String))
    (key x k : String) :
    dictGet (dictDiscardFromSet d key x) k =
      if k = key then (dictGet d key).map (fun s => setDiscard s x)
      else dictGet d k := by
  unfold dictDiscardFromSet
  cases h : dictGet d key with
  | some s => rw [dictGet_dictSet]; simp [h]
  | none => by_cases h' : k = key <;> simp [h, h']

theorem dictGet_dictAppendToList (d : List (String × List String))
    (key x k : String) :
    dictGet (dictAppendToList d key x) k =
      if k = key then some (dictGetD d key [] ++ [x]) else dictGet d k := by
  unfold dictAppendToList
  cases h : dictGet d key with
  | some l => rw [dictGet_dictSet]; simp [dictGetD, h]
  | none =>
    rw [dictGet_append]
    by_cases h' : k = key
    · subst h'; simp [h, dictGet, dictGetD]
    · have h2 : ¬ key = k := fun hh => h' hh.symm
      simp [dictGet, h', h2]

theorem dictGet_mem {α : Type} (d : List (String × α)) (k : String) (v : α)
    (h : dictGet d k = some v) : (k, v) ∈ d := by
  induction d with
  | nil => simp [dictGet] at h
  | cons e rest ih =>
    obtain ⟨k₀, w⟩ := e
    by_cases h0 : k₀ = k
    · subst h0
      simp [dictGet] at h
      simp [h]
    · simp [dictGet, h0] at h
      exact List.mem_cons_of_mem _ (ih h)

theorem mem_dictGet {α : Type} (d : List (String × α)) (k : String) (v : α)
    (hn : (d.map Prod.fst).Nodup) (h : (k, v) ∈ d) : dictGet d k = some v := by
  induction d with
  | nil => simp at h
  | cons e rest ih =>
    obtain ⟨k₀, w⟩ := e
    rw [List.map_cons, List.nodup_cons] at hn
    rcases List.mem_cons.mp h with h1 | h1
    · rw [Prod.mk.injEq] at h1
      obtain ⟨hk, hv⟩ := h1
      subst hk; subst hv
      simp [dictGet]
    · have hk : ¬ k₀ = k := by
        intro hk; subst hk
        exact hn.1 (List.mem_map.mpr ⟨(k₀, v), h1, rfl⟩)
      simp [dictGet, hk]
      exact ih hn.2 h1

-- ── Data model (src/models.py, src/storage.py) ───────────────────────────────

/-- HTTP-level error outcome: `raise HTTPException(status_code, detail)`. -/
structure ApiError where
  status : Nat
  detail : String
deriving DecidableEq

/-- `media_type: Literal["image", "video"]` from `PostCreate`. -/
inductive MediaType where
  | image
  | video
deriving DecidableEq

/-- The stored user dict built by `create_user` (`src/routers/users.py`). -/
structure User where
  id : String
  username : String
  display_name : String
  bio : String
  profile_pic_url : String
  created_at : Nat
deriving DecidableEq

/-- The stored post dict built by `create_post` (`src/routers/posts.py`). -/
structure Post where
  id : String
  user_id : String
  media_url : String
  media_type : MediaType
  caption : String
  hashtags : List String
  created_at : Nat
deriving DecidableEq

/-- The stored comment dict built by `add_comment` (`src/routers/comments.py`). -/
structure Comment where
  id : String
  user_id : String
  post_id : String
  text : String
  created_at : Nat
deriving DecidableEq

/-- `UserCreate` request payload. -/
structure UserCreate where
  username : String
  display_name : String
  bio : String
  profile_pic_url : String
deriving DecidableEq

/-- `UserUpdate` request payload — all fields optional. -/
structure UserUpdate where
  display_name : Option String
  bio : Option String
  profile_pic_url : Option String
deriving DecidableEq

/-- `PostCreate` request payload. -/
structure PostCreate where
  user_id : String
  media_url : String
  media_type : MediaType
  caption : String
deriving DecidableEq

/-- `CommentCreate` request payload. -/
structure CommentCreate where
  user_id : String
  text : String
deriving DecidableEq

/-- The whole in-memory store of `src/storage.py`: eight module-level
collections shared by every router. -/
structure St where
  users : List (String × User)
  posts : List (String × Post)
  follows : List (String × List String)
  followers : List (String × List String)
  likes : List (String × List String)
  comments : List (String × Comment)
  post_comments : List (String × List String)
  hashtag_posts : List (String × List String)
deriving DecidableEq

/-- The state after `reset_storage()` — every collection empty. -/
def St.empty : St :=
  { users := [], posts := [], follows := [], followers := [], likes := [],
    comments := [], post_comments := [], hashtag_posts := [] }

/-- `store.follows.get(a, set())` — the set of ids `a` follows. -/
def followingOf (s : St) (a : String) : List String :=
  dictGetD s.follows a []

/-- `store.followers.get(b, set())` — the set of ids following `b`. -/
def followersOf (s : St) (b : String) : List String :=
  dictGetD s.followers b []

/-- `store.hashtag_posts.get(t, set())` — the post-set of a tag. -/
def tagPostsOf (s : St) (t : String) : List String :=
  dictGetD s.hashtag_posts t []

/-- `store.post_comments.get(p, [])` — the ordered comment-id sequence. -/
def commentSeqOf (s : St) (p : String) : List String :=
  dictGetD s.post_comments p []

-- ── Hashtag extraction (src/routers/posts.py, _HASHTAG_RE = #(\w+)) ──────────

/-- A regex `\w` word character, at the ASCII fragment the captions in this
service use: alphanumeric or underscore. -/
def isWordChar (c : Char) : Bool :=
  c.isAlphanum || c == '_'

/-- `_HASHTAG_RE.findall(caption)`: every `#` followed by a maximal nonempty
run of word characters yields that run.  Word characters never contain `#`,
so scanning every position is the same as the regex engine resuming after
each match. -/
def extractTags : List Char → List String
  | [] => []
  | c :: rest =>
    (if c == '#' then
      (fun w => if w.isEmpty then [] else [String.mk w]) (rest.takeWhile isWordChar)
    else []) ++ extractTags rest

/-- `tag.lower()` at the character level (ASCII captions). -/
def lowerStr (t : String) : String :=
  String.mk (t.data.map Char.toLower)

/-- `[tag.lower() for tag in _HASHTAG_RE.findall(payload.caption)]`. -/
def extract_hashtags (caption : String) : List String :=
  (extractTags caption.data).map lowerStr

-- ── Stable sorting (Python list.sort is stable; reverse=True on the key) ─────

/-- Stable insertion step for `sortBy`. -/
def insertBy {α : Type} (le : α → α → Bool) (x : α) : List α → List α
  | [] => [x]
  | y :: ys => if le x y then x :: y :: ys else y :: insertBy le x ys

/-- Stable insertion sort — extensionally the stable sort Python's
`list.sort` computes for the same (total) comparator. -/
def sortBy {α : Type} (le : α → α → Bool) : List α → List α
  | [] => []
  | x :: xs => insertBy le x (sortBy le xs)

/-- `sort(key=lambda p: p["created_at"], reverse=True)` — newest first. -/
def sortPostsDesc (ps : List Post) : List Post :=
  sortBy (fun a b => Nat.ble b.created_at a.created_at) ps

-- ── Router operations (src/routers/*.py) ─────────────────────────────────────

/-- `POST /users` (`create_user`, src/routers/users.py).  `uid` and `now`
stand for the generated uuid4 and the clock reading. -/
def create_user (payload : UserCreate) (uid : String) (now : Nat) (s : St) :
    Except ApiError Unit × St :=
  if s.users.any (fun e => e.2.username == payload.username) then
    (Except.error ⟨409, "Username already taken"⟩, s)
  else
    let user : User :=
      { id := uid, username := payload.username,
        display_name := payload.display_name, bio := payload.bio,
        profile_pic_url := payload.profile_pic_url, created_at := now }
    let s1 := { s with users := dictSet s.users uid user }
    let s2 := { s1 with follows := dictSetdefault s1.follows uid [] }
    let s3 := { s2 with followers := dictSetdefault s2.followers uid [] }
    (Except.ok (), s3)

/-- `PUT /users/{user_id}` (`update_user`, src/routers/users.py): only the
provided (non-None) fields overwrite. -/
def update_user (user_id : String) (payload : UserUpdate) (s : St) :
    Except ApiError Unit × St :=
  match dictGet s.users user_id with
  | none => (Except.error ⟨404, "User not found"⟩, s)
  | some user =>
    let u1 := match payload.display_name with
              | some d => { user with display_name := d }
              | none => user
    let u2 := match payload.bio with
              | some b => { u1 with bio := b }
              | none => u1
    let u3 := match payload.profile_pic_url with
              | some p => { u2 with profile_pic_url := p }
              | none => u2
    (Except.ok (), { s with users := dictSet s.users user_id u3 })

/-- `POST /posts` (`create_post`, src/routers/posts.py): hashtag extraction,
post insertion, auxiliary-index initialisation, hashtag indexing. -/
def create_post (payload : PostCreate) (pid : String) (now : Nat) (s : St) :
    Except ApiError Unit × St :=
  if (dictGet s.users payload.user_id).isNone then
    (Except.error ⟨404, "User not found"⟩, s)
  else
    let hashtags := extract_hashtags payload.caption
    let post : Post :=
      { id := pid, user_id := payload.user_id, media_url := payload.media_url,
        media_type := payload.media_type, caption := payload.caption,
        hashtags := hashtags, created_at := now }
    let s1 := { s with posts := dictSet s.posts pid post }
    let s2 := { s1 with likes := dictSetdefault s1.likes pid [] }
    let s3 := { s2 with post_comments := dictSetdefault s2.post_comments pid [] }
    let s4 := { s3 with hashtag_posts :=
                  hashtags.foldl (fun h t => dictAddToSet h t pid) s3.hashtag_posts }
    (Except.ok (), s4)

/-- `GET /posts/{post_id}` (`get_post`, src/routers/posts.py). -/
def get_post (post_id : String) (s : St) : Except ApiError Post :=
  match dictGet s.posts post_id with
  | none => Except.error ⟨404, "Post not found"⟩
  | some p => Except.ok p

/-- `tag_set = store.hashtag_posts.get(tag); if tag_set: tag_set.discard(pid)`
— the per-tag deindex step of `delete_post`. -/
def deindexTag (h : List (String × List String)) (tag pid : String) :
    List (String × List String) :=
  match dictGet h tag with
  | none => h
  | some ts => if ts.isEmpty then h else dictSet h tag (setDiscard ts pid)

/-- `DELETE /posts/{post_id}` (`delete_post`, src/routers/posts.py):
cascade over hashtag index, comments, likes, then the post itself. -/
def delete_post (post_id : String) (s : St) : Except ApiError Unit × St :=
  match dictGet s.posts post_id with
  | none => (Except.error ⟨404, "Post not found"⟩, s)
  | some post =>
    let s1 := { s with hashtag_posts :=
                  post.hashtags.foldl (fun h t => deindexTag h t post_id) s.hashtag_posts }
    let cids := dictGetD s1.post_comments post_id []
    let s2 := { s1 with post_comments := dictPop s1.post_comments post_id,
                        comments := cids.foldl (fun cm c => dictPop cm c) s1.comments }
    let s3 := { s2 with likes := dictPop s2.likes post_id }
    let s4 := { s3 with posts := dictPop s3.posts post_id }
    (Except.ok (), s4)

/-- `POST /users/{user_id}/follow/{target_id}` (`follow_user`,
src/routers/follows.py).  The `setdefault` happens before the 409 check,
exactly as in the handler. -/
def follow_user (user_id target_id : String) (s : St) :
    Except ApiError Unit × St :=
  if user_id = target_id then
    (Except.error ⟨400, "Cannot follow yourself"⟩, s)
  else if (dictGet s.users user_id).isNone then
    (Except.error ⟨404, "User not found"⟩, s)
  else if (dictGet s.users target_id).isNone then
    (Except.error ⟨404, "Target user not found"⟩, s)
  else
    let following_set := dictGetD s.follows user_id []
    let s1 := { s with follows := dictSetdefault s.follows user_id [] }
    if target_id ∈ following_set then
      (Except.error ⟨409, "Already following this user"⟩, s1)
    else
      let s2 := { s1 with follows := dictSet s1.follows user_id (setAdd following_set target_id) }
      let s3 := { s2 with followers := dictAddToSet s2.followers target_id user_id }
      (Except.ok (), s3)

/-- `DELETE /users/{user_id}/follow/{target_id}` (`unfollow_user`,
src/routers/follows.py): dual-remove from both indexes. -/
def unfollow_user (user_id target_id : String) (s : St) :
    Except ApiError Unit × St :=
  if (dictGet s.users user_id).isNone then
    (Except.error ⟨404, "User not found"⟩, s)
  else if (dictGet s.users target_id).isNone then
    (Except.error ⟨404, "Target user not found"⟩, s)
  else
    let following_set := dictGetD s.follows user_id []
    if target_id ∉ following_set then
      (Except.error ⟨404, "Not following this user"⟩, s)
    else
      let s1 := { s with follows := dictDiscardFromSet s.follows user_id target_id }
      let s2 := { s1 with followers := dictDiscardFromSet s1.followers target_id user_id }
      (Except.ok (), s2)

/-- `POST /posts/{post_id}/like` (`like_post`, src/routers/likes.py). -/
def like_post (post_id : String) (payload : String) (s : St) :
    Except ApiError Unit × St :=
  if (dictGet s.posts post_id).isNone then
    (Except.error ⟨404, "Post not found"⟩, s)
  else if (dictGet s.users payload).isNone then
    (Except.error ⟨404, "User not found"⟩, s)
  else
    let liked_by := dictGetD s.likes post_id []
    let s1 := { s with likes := dictSetdefault s.likes post_id [] }
    if payload ∈ liked_by then
      (Except.error ⟨409, "Post already liked by this user"⟩, s1)
    else
      (Except.ok (), { s1 with likes := dictSet s1.likes post_id (setAdd liked_by payload) })

/-- `DELETE /posts/{post_id}/like` (`unlike_post`, src/routers/likes.py). -/
def unlike_post (post_id user_id : String) (s : St) :
    Except ApiError Unit × St :=
  if (dictGet s.posts post_id).isNone then
    (Except.error ⟨404, "Post not found"⟩, s)
  else
    let liked_by := dictGetD s.likes post_id []
    if user_id ∉ liked_by then
      (Except.error ⟨404, "Like not found"⟩, s)
    else
      (Except.ok (), { s with likes := dictDiscardFromSet s.likes post_id user_id })

/-- Python `str.strip()` at the character level: drop leading and trailing
whitespace. -/
def stripStr (t : String) : String :=
  String.mk (((t.data.dropWhile Char.isWhitespace).reverse.dropWhile
    Char.isWhitespace).reverse)

/-- `POST /posts/{post_id}/comments` (`add_comment`, src/routers/comments.py).
The blank-text rejection is the Pydantic validator on `CommentCreate`
(`if not v.strip(): raise`), which fires before the handler touches any
state. -/
def add_comment (post_id : String) (payload : CommentCreate) (cid : String)
    (now : Nat) (s : St) : Except ApiError Unit × St :=
  if stripStr payload.text = "" then
    (Except.error ⟨422, "Comment text must not be blank"⟩, s)
  else if (dictGet s.posts post_id).isNone then
    (Except.error ⟨404, "Post not found"⟩, s)
  else if (dictGet s.users payload.user_id).isNone then
    (Except.error ⟨404, "User not found"⟩, s)
  else
    let comment : Comment :=
      { id := cid, user_id := payload.user_id, post_id := post_id,
        text := payload.text, created_at := now }
    let s1 := { s with comments := dictSet s.comments cid comment }
    let s2 := { s1 with post_comments := dictAppendToList s1.post_comments post_id cid }
    (Except.ok (), s2)

/-- `GET /posts/{post_id}/comments` (`get_comments`, src/routers/comments.py):
resolve the ordered id sequence, silently skipping unresolvable ids. -/
def get_comments (post_id : String) (s : St) : Except ApiError (List Comment) :=
  if (dictGet s.posts post_id).isNone then
    Except.error ⟨404, "Post not found"⟩
  else
    Except.ok ((dictGetD s.post_comments post_id []).filterMap
      (fun c => dictGet s.comments c))

/-- `DELETE /comments/{comment_id}` (`delete_comment`,
src/routers/comments.py): `list.remove` drops the first occurrence; the
removal is skipped when the id is absent from the parent's sequence. -/
def delete_comment (comment_id : String) (s : St) : Except ApiError Unit × St :=
  match dictGet s.comments comment_id with
  | none => (Except.error ⟨404, "Comment not found"⟩, s)
  | some comment =>
    let lst := dictGetD s.post_comments comment.post_id []
    let pc' := if comment_id ∈ lst then
                 dictSet s.post_comments comment.post_id (lst.erase comment_id)
               else s.post_comments
    (Except.ok (), { s with post_comments := pc',
                            comments := dictPop s.comments comment_id })

/-- `GET /feed/{user_id}` (`get_feed`, src/routers/feed.py).  The handler
wraps each post in a `PostOut` with derived counts; the identity, author and
order of the returned posts are what the claims are about, so the embedding
returns the stored posts. -/
def get_feed (user_id : String) (s : St) : Except ApiError (List Post) :=
  if (dictGet s.users user_id).isNone then
    Except.error ⟨404, "User not found"⟩
  else
    let following_ids := dictGetD s.follows user_id []
    if following_ids.isEmpty then Except.ok []
    else
      Except.ok (sortPostsDesc ((s.posts.map Prod.snd).filter
        (fun p => decide (p.user_id ∈ following_ids))))

/-- `GET /explore/trending` (`explore_trending`, src/routers/explore.py):
pairs (tag, len(post_ids)) for non-empty post-sets, stable-sorted by count
descending, truncated to 10. -/
def explore_trending (s : St) : List (String × Nat) :=
  (sortBy (fun a b => Nat.ble b.2 a.2)
    (s.hashtag_posts.filterMap
      (fun e => if e.2.isEmpty then none else some (e.1, e.2.length)))).take 10

/-- `GET /explore/hashtag/{tag}` (`explore_by_hashtag`,
src/routers/explore.py): lowercase the tag, resolve its post-set, sort
newest-first. -/
def explore_by_hashtag (tag : String) (s : St) : List Post :=
  let post_ids := dictGetD s.hashtag_posts (lowerStr tag) []
  sortPostsDesc (post_ids.filterMap (fun pid => dictGet s.posts pid))

-- ── Reachability: the public mutation operations ─────────────────────────────

/-- One public mutation, as dispatched by `main.py`'s routers.  Generated
uuid4 identifiers are fresh (process-wide unique, never reused). -/
inductive Step : St → St → Prop where
  | createUser (s : St) (payload : UserCreate) (uid : String) (now : Nat)
      (hfresh : dictGet s.users uid = none) :
      Step s (create_user payload uid now s).2
  | updateUser (s : St) (user_id : String) (payload : UserUpdate) :
      Step s (update_user user_id payload s).2
  | createPost (s : St) (payload : PostCreate) (pid : String) (now : Nat)
      (hfresh : dictGet s.posts pid = none) :
      Step s (create_post payload pid now s).2
  | deletePost (s : St) (pid : String) :
      Step s (delete_post pid s).2
  | followUser (s : St) (a b : String) :
      Step s (follow_user a b s).2
  | unfollowUser (s : St) (a b : String) :
      Step s (unfollow_user a b s).2
  | likePost (s : St) (p u : String) :
      Step s (like_post p u s).2
  | unlikePost (s : St) (p u : String) :
      Step s (unlike_post p u s).2
  | addComment (s : St) (pid : String) (payload : CommentCreate) (cid : String)
      (now : Nat) (hfresh : dictGet s.comments cid = none) :
      Step s (add_comment pid payload cid now s).2
  | deleteComment (s : St) (cid : String) :
      Step s (delete_comment cid s).2

/-- States reachable from the reset store by public operations. -/
inductive Reachable : St → Prop where
  | init : Reachable St.empty
  | step {s s' : St} : Reachable s → Step s s' → Reachable s'

/-- The relational-index invariants of spec §3, as maintained by the
routers. -/
structure StInv (s : St) : Prop where
  symm : ∀ a b, b ∈ followingOf s a ↔ a ∈ followersOf s b
  noSelf : ∀ a, a ∉ followingOf s a
  tagMem : ∀ t p, p ∈ tagPostsOf s t →
    ∃ post, dictGet s.posts p = some post ∧ t ∈ post.hashtags
  tagNodup : ∀ t, (tagPostsOf s t).Nodup
  seqNodup : ∀ p seq, dictGet s.post_comments p = some seq → seq.Nodup
  seqMem : ∀ p seq c, dictGet s.post_comments p = some seq → c ∈ seq →
    ∃ cm, dictGet s.comments c = some cm ∧ cm.post_id = p ∧ cm.id = c
  cmSeq : ∀ c cm, dictGet s.comments c = some cm →
    ∃ seq, dictGet s.post_comments cm.post_id = some seq ∧ c ∈ seq

-- ── dictGetD-level corollaries ───────────────────────────────────────────────

theorem dictGetD_dictSet {α : Type} (d : List (String × α)) (k : String) (v : α)
    (k' : String) (dflt : α) :
    dictGetD (dictSet d k v) k' dflt = if k' = k then v else dictGetD d k' dflt := by
  unfold dictGetD
  rw [dictGet_dictSet]
  by_cases h : k' = k <;> simp [h]

theorem dictGetD_setdefault_nil {α : Type} (d : List (String × List α))
    (k k' : String) :
    dictGetD (dictSetdefault d k []) k' [] = dictGetD d k' [] := by
  unfold dictGetD
  rw [dictGet_dictSetdefault]
  by_cases h : k' = k
  · rw [if_pos h, h]
    cases hg : dictGet d k <;> simp [hg]
  · simp [h]

theorem dictGetD_dictAddToSet (d : List (String × List String)) (key x k : String) :
    dictGetD (dictAddToSet d key x) k [] =
      if k = key then setAdd (dictGetD d key []) x else dictGetD d k [] := by
  unfold dictGetD
  rw [dictGet_dictAddToSet]
  by_cases h : k = key <;> simp [h, dictGetD]

theorem dictGetD_dictDiscardFromSet (d : List (String × List String))
    (key x k : String) :
    dictGetD (dictDiscardFromSet d key x) k [] =
      if k = key then setDiscard (dictGetD d key []) x else dictGetD d k [] := by
  unfold dictGetD
  rw [dictGet_dictDiscardFromSet]
  by_cases h : k = key
  · rw [if_pos h, if_pos h]
    cases hg : dictGet d key <;> simp [hg, setDiscard]
  · simp [h]

theorem dictGetD_dictAppendToList (d : List (String × List String))
    (key x k : String) :
    dictGetD (dictAppendToList d key x) k [] =
      if k = key then dictGetD d key [] ++ [x] else dictGetD d k [] := by
  unfold dictGetD
  rw [dictGet_dictAppendToList]
  by_cases h : k = key <;> simp [h, dictGetD]

theorem dictGetD_dictPop {α : Type} (d : List (String × α)) (k k' : String)
    (dflt : α) :
    dictGetD (dictPop d k) k' dflt = if k' = k then dflt else dictGetD d k' dflt := by
  unfold dictGetD
  rw [dictGet_dictPop]
  by_cases h : k' = k <;> simp [h]

-- ── Fold lemmas for the hashtag index ────────────────────────────────────────

theorem mem_foldl_dictAddToSet (tags : List String) (pid : String) :
    ∀ (h : List (String × List String)) (t q : String),
      q ∈ dictGetD (tags.foldl (fun h' t' => dictAddToSet h' t' pid) h) t [] ↔
        (q = pid ∧ t ∈ tags) ∨ q ∈ dictGetD h t [] := by
  induction tags with
  | nil => intro h t q; simp
  | cons t0 rest ih =>
    intro h t q
    rw [List.foldl_cons, ih]
    rw [dictGetD_dictAddToSet]
    by_cases ht : t = t0
    · subst ht
      rw [if_pos rfl, mem_setAdd]
      constructor
      · rintro (⟨rfl, hm⟩ | hq)
        · exact Or.inl ⟨rfl, List.mem_cons_self _ _⟩
        · rcases hq with rfl | hq
          · exact Or.inl ⟨rfl, List.mem_cons_self _ _⟩
          · exact Or.inr hq
      · rintro (⟨rfl, _⟩ | hq)
        · exact Or.inr (Or.inl rfl)
        · exact Or.inr (Or.inr hq)
    · rw [if_neg ht]
      constructor
      · rintro (⟨rfl, hm⟩ | hq)
        · exact Or.inl ⟨rfl, List.mem_cons_of_mem _ hm⟩
        · exact Or.inr hq
      · rintro (⟨rfl, hm⟩ | hq)
        · rcases List.mem_cons.mp hm with rfl | hm
          · exact absurd rfl ht
          · exact Or.inl ⟨rfl, hm⟩
        · exact Or.inr hq

theorem nodup_foldl_dictAddToSet (tags : List String) (pid : String) :
    ∀ (h : List (String × List String)),
      (∀ u, (dictGetD h u []).Nodup) →
      ∀ t, (dictGetD (tags.foldl (fun h' t' => dictAddToSet h' t' pid) h) t []).Nodup := by
  induction tags with
  | nil => intro h hh t; exact hh t
  | cons t0 rest ih =>
    intro h hh t
    rw [List.foldl_cons]
    refine ih _ (fun u => ?_) t
    rw [dictGetD_dictAddToSet]
    by_cases hu : u = t0
    · rw [if_pos hu]; exact nodup_setAdd _ _ (hh t0)
    · rw [if_neg hu]; exact hh u

theorem deindexTag_eq_of_none (h : List (String × List String)) (tag pid : String)
    (hg : dictGet h tag = none) : deindexTag h tag pid = h := by
  unfold deindexTag
  rw [hg]

theorem deindexTag_eq_of_empty (h : List (String × List String)) (tag pid : String)
    (ts : List String) (hg : dictGet h tag = some ts) (he : ts.isEmpty = true) :
    deindexTag h tag pid = h := by
  unfold deindexTag
  rw [hg]
  simp [he]

theorem deindexTag_eq_of_nonempty (h : List (String × List String))
    (tag pid : String) (ts : List String) (hg : dictGet h tag = some ts)
    (he : ts.isEmpty = false) :
    deindexTag h tag pid = dictSet h tag (setDiscard ts pid) := by
  unfold deindexTag
  rw [hg]
  simp [he]

theorem dictGetD_deindexTag (h : List (String × List String)) (tag pid t : String) :
    dictGetD (deindexTag h tag pid) t [] =
      if t = tag then setDiscard (dictGetD h tag []) pid else dictGetD h t [] := by
  cases hg : dictGet h tag with
  | none =>
    rw [deindexTag_eq_of_none h tag pid hg]
    by_cases ht : t = tag
    · rw [if_pos ht, ht]
      unfold dictGetD
      rw [hg]
      rfl
    · rw [if_neg ht]
  | some ts =>
    cases he : ts.isEmpty with
    | true =>
      rw [deindexTag_eq_of_empty h tag pid ts hg he]
      have hts : ts = [] := List.isEmpty_iff.mp he
      by_cases ht : t = tag
      · rw [if_pos ht, ht]
        unfold dictGetD
        rw [hg, hts]
        rfl
      · rw [if_neg ht]
    | false =>
      rw [deindexTag_eq_of_nonempty h tag pid ts hg he, dictGetD_dictSet]
      by_cases ht : t = tag
      · rw [if_pos ht, if_pos ht]
        unfold dictGetD
        rw [hg]
        rfl
      · rw [if_neg ht, if_neg ht]

theorem mem_foldl_deindexTag (tags : List String) (pid : String) :
    ∀ (h : List (String × List String)) (t q : String),
      q ∈ dictGetD (tags.foldl (fun h' t' => deindexTag h' t' pid) h) t [] ↔
        q ∈ dictGetD h t [] ∧ (t ∈ tags → q ≠ pid) := by
  induction tags with
  | nil => intro h t q; simp
  | cons t0 rest ih =>
    intro h t q
    rw [List.foldl_cons, ih]
    have hstep : q ∈ dictGetD (deindexTag h t0 pid) t [] ↔
        q ∈ dictGetD h t [] ∧ (t = t0 → q ≠ pid) := by
      rw [dictGetD_deindexTag]
      by_cases ht : t = t0
      · rw [if_pos ht, mem_setDiscard, ht]
        constructor
        · rintro ⟨hq, hne⟩
          exact ⟨hq, fun _ => hne⟩
        · rintro ⟨hq, hne⟩
          exact ⟨hq, hne rfl⟩
      · rw [if_neg ht]
        constructor
        · intro hq
          exact ⟨hq, fun hh => absurd hh ht⟩
        · exact fun hq => hq.1
    rw [hstep]
    constructor
    · rintro ⟨⟨hq, h1⟩, h2⟩
      refine ⟨hq, ?_⟩
      intro hm
      rcases List.mem_cons.mp hm with rfl | hm
      · exact h1 rfl
      · exact h2 hm
    · rintro ⟨hq, hall⟩
      exact ⟨⟨hq, fun ht => hall (ht ▸ List.mem_cons_self _ _)⟩,
             fun hm => hall (List.mem_cons_of_mem _ hm)⟩

theorem nodup_foldl_deindexTag (tags : List String) (pid : String) :
    ∀ (h : List (String × List String)),
      (∀ u, (dictGetD h u []).Nodup) →
      ∀ t, (dictGetD (tags.foldl (fun h' t' => deindexTag h' t' pid) h) t []).Nodup := by
  induction tags with
  | nil => intro h hh t; exact hh t
  | cons t0 rest ih =>
    intro h hh t
    rw [List.foldl_cons]
    refine ih _ (fun u => ?_) t
    rw [dictGetD_deindexTag]
    by_cases hu : u = t0
    · rw [if_pos hu]; exact nodup_setDiscard _ _ (hh t0)
    · rw [if_neg hu]; exact hh u

theorem dictGet_foldl_dictPop {α : Type} (cids : List String) :
    ∀ (d : List (String × α)) (c : String),
      dictGet (cids.foldl (fun d' c' => dictPop d' c') d) c =
        if c ∈ cids then none else dictGet d c := by
  induction cids with
  | nil => intro d c; simp
  | cons c0 rest ih =>
    intro d c
    rw [List.foldl_cons, ih, dictGet_dictPop]
    by_cases h : c ∈ rest
    · simp [h]
    · by_cases h0 : c = c0 <;> simp [h, h0]

-- ── Success-shape lemmas for follow / unfollow ───────────────────────────────

theorem follow_user_ok (a b : String) (s s' : St) (r : Unit)
    (h : follow_user a b s = (Except.ok r, s')) :
    a ≠ b ∧ (dictGet s.users a).isSome ∧ (dictGet s.users b).isSome ∧
    b ∉ followingOf s a ∧
    s'.users = s.users ∧ s'.posts = s.posts ∧ s'.likes = s.likes ∧
    s'.comments = s.comments ∧ s'.post_comments = s.post_comments ∧
    s'.hashtag_posts = s.hashtag_posts ∧
    (∀ x, followingOf s' x =
      if x = a then setAdd (followingOf s a) b else followingOf s x) ∧
    (∀ x, followersOf s' x =
      if x = b then setAdd (followersOf s b) a else followersOf s x) := by
  unfold follow_user at h
  by_cases hab : a = b
  · rw [if_pos hab] at h; simp at h
  rw [if_neg hab] at h
  by_cases hua : (dictGet s.users a).isNone = true
  · rw [if_pos hua] at h; simp at h
  rw [if_neg hua] at h
  by_cases hub : (dictGet s.users b).isNone = true
  · rw [if_pos hub] at h; simp at h
  rw [if_neg hub] at h
  simp only [] at h
  by_cases hmem : b ∈ dictGetD s.follows a []
  · rw [if_pos hmem] at h; simp at h
  rw [if_neg hmem] at h
  rw [Prod.mk.injEq] at h
  obtain ⟨-, hs⟩ := h
  subst hs
  refine ⟨hab, ?_, ?_, hmem, rfl, rfl, rfl, rfl, rfl, rfl, ?_, ?_⟩
  · rcases ho : dictGet s.users a with - | u
    · rw [ho] at hua; simp at hua
    · rfl
  · rcases ho : dictGet s.users b with - | u
    · rw [ho] at hub; simp at hub
    · rfl
  · intro x
    show dictGetD (dictSet (dictSetdefault s.follows a []) a
      (setAdd (dictGetD s.follows a []) b)) x [] = _
    rw [dictGetD_dictSet]
    by_cases hx : x = a
    · rw [if_pos hx, if_pos hx]; rfl
    · rw [if_neg hx, if_neg hx, dictGetD_setdefault_nil]; rfl
  · intro x
    show dictGetD (dictAddToSet s.followers b a) x [] = _
    rw [dictGetD_dictAddToSet]
    by_cases hx : x = b
    · rw [if_pos hx, if_pos hx]; rfl
    · rw [if_neg hx, if_neg hx]; rfl

theorem unfollow_user_ok (a b : String) (s s' : St) (r : Unit)
    (h : unfollow_user a b s = (Except.ok r, s')) :
    (dictGet s.users a).isSome ∧ (dictGet s.users b).isSome ∧
    b ∈ followingOf s a ∧
    s'.users = s.users ∧ s'.posts = s.posts ∧ s'.likes = s.likes ∧
    s'.comments = s.comments ∧ s'.post_comments = s.post_comments ∧
    s'.hashtag_posts = s.hashtag_posts ∧
    (∀ x, followingOf s' x =
      if x = a then setDiscard (followingOf s a) b else followingOf s x) ∧
    (∀ x, followersOf s' x =
      if x = b then setDiscard (followersOf s b) a else followersOf s x) := by
  unfold unfollow_user at h
  by_cases hua : (dictGet s.users a).isNone = true
  · rw [if_pos hua] at h; simp at h
  rw [if_neg hua] at h
  by_cases hub : (dictGet s.users b).isNone = true
  · rw [if_pos hub] at h; simp at h
  rw [if_neg hub] at h
  simp only [] at h
  by_cases hmem : b ∈ dictGetD s.follows a []
  · rw [if_neg (by simpa using hmem)] at h
    rw [Prod.mk.injEq] at h
    obtain ⟨-, hs⟩ := h
    subst hs
    refine ⟨?_, ?_, hmem, rfl, rfl, rfl, rfl, rfl, rfl, ?_, ?_⟩
    · rcases ho : dictGet s.users a with - | u
      · rw [ho] at hua; simp at hua
      · rfl
    · rcases ho : dictGet s.users b with - | u
      · rw [ho] at hub; simp at hub
      · rfl
    · intro x
      show dictGetD (dictDiscardFromSet s.follows a b) x [] = _
      rw [dictGetD_dictDiscardFromSet]
      by_cases hx : x = a
      · rw [if_pos hx, if_pos hx]; rfl
      · rw [if_neg hx, if_neg hx]; rfl
    · intro x
      show dictGetD (dictDiscardFromSet s.followers b a) x [] = _
      rw [dictGetD_dictDiscardFromSet]
      by_cases hx : x = b
      · rw [if_pos hx, if_pos hx]; rfl
      · rw [if_neg hx, if_neg hx]; rfl
  · rw [if_pos (by simpa using hmem)] at h
    simp at h

-- ── Success-shape lemmas for the other mutations ─────────────────────────────

/-- The user dict `create_user` stores. -/
def newUser (payload : UserCreate) (uid : String) (now : Nat) : User :=
  { id := uid, username := payload.username,
    display_name := payload.display_name, bio := payload.bio,
    profile_pic_url := payload.profile_pic_url, created_at := now }

/-- The post dict `create_post` stores. -/
def newPost (payload : PostCreate) (pid : String) (now : Nat) : Post :=
  { id := pid, user_id := payload.user_id, media_url := payload.media_url,
    media_type := payload.media_type, caption := payload.caption,
    hashtags := extract_hashtags payload.caption, created_at := now }

/-- The comment dict `add_comment` stores. -/
def newComment (post_id : String) (payload : CommentCreate) (cid : String)
    (now : Nat) : Comment :=
  { id := cid, user_id := payload.user_id, post_id := post_id,
    text := payload.text, created_at := now }

theorem create_user_ok (payload : UserCreate) (uid : String) (now : Nat)
    (s s' : St) (r : Unit) (h : create_user payload uid now s = (Except.ok r, s')) :
    s'.users = dictSet s.users uid (newUser payload uid now) ∧
    s'.follows = dictSetdefault s.follows uid [] ∧
    s'.followers = dictSetdefault s.followers uid [] ∧
    s'.posts = s.posts ∧ s'.likes = s.likes ∧ s'.comments = s.comments ∧
    s'.post_comments = s.post_comments ∧ s'.hashtag_posts = s.hashtag_posts := by
  unfold create_user at h
  by_cases hdup : (s.users.any fun e => e.2.username == payload.username) = true
  · rw [if_pos hdup] at h; simp at h
  rw [if_neg hdup] at h
  rw [Prod.mk.injEq] at h
  obtain ⟨-, hs⟩ := h
  subst hs
  exact ⟨rfl, rfl, rfl, rfl, rfl, rfl, rfl, rfl⟩

theorem create_post_ok (payload : PostCreate) (pid : String) (now : Nat)
    (s s' : St) (r : Unit) (h : create_post payload pid now s = (Except.ok r, s')) :
    (dictGet s.users payload.user_id).isSome ∧
    s'.users = s.users ∧ s'.follows = s.follows ∧ s'.followers = s.followers ∧
    s'.comments = s.comments ∧
    s'.posts = dictSet s.posts pid (newPost payload pid now) ∧
    s'.likes = dictSetdefault s.likes pid [] ∧
    s'.post_comments = dictSetdefault s.post_comments pid [] ∧
    s'.hashtag_posts = (extract_hashtags payload.caption).foldl
      (fun h' t => dictAddToSet h' t pid) s.hashtag_posts := by
  unfold create_post at h
  by_cases hu : (dictGet s.users payload.user_id).isNone = true
  · rw [if_pos hu] at h; simp at h
  rw [if_neg hu] at h
  rw [Prod.mk.injEq] at h
  obtain ⟨-, hs⟩ := h
  subst hs
  refine ⟨?_, rfl, rfl, rfl, rfl, rfl, rfl, rfl, rfl⟩
  rcases ho : dictGet s.users payload.user_id with - | u
  · rw [ho] at hu; simp at hu
  · rfl

theorem delete_post_ok (pid : String) (s s' : St) (r : Unit)
    (h : delete_post pid s = (Except.ok r, s')) :
    ∃ post, dictGet s.posts pid = some post ∧
    s'.users = s.users ∧ s'.follows = s.follows ∧ s'.followers = s.followers ∧
    s'.hashtag_posts = post.hashtags.foldl
      (fun h' t => deindexTag h' t pid) s.hashtag_posts ∧
    s'.post_comments = dictPop s.post_comments pid ∧
    s'.comments = (dictGetD s.post_comments pid []).foldl
      (fun cm c => dictPop cm c) s.comments ∧
    s'.likes = dictPop s.likes pid ∧
    s'.posts = dictPop s.posts pid := by
  unfold delete_post at h
  cases hg : dictGet s.posts pid with
  | none => rw [hg] at h; simp at h
  | some post =>
    rw [hg] at h
    rw [Prod.mk.injEq] at h
    obtain ⟨-, hs⟩ := h
    subst hs
    exact ⟨post, rfl, rfl, rfl, rfl, rfl, rfl, rfl, rfl, rfl⟩

theorem add_comment_ok (post_id : String) (payload : CommentCreate)
    (cid : String) (now : Nat) (s s' : St) (r : Unit)
    (h : add_comment post_id payload cid now s = (Except.ok r, s')) :
    (dictGet s.posts post_id).isSome ∧
    (dictGet s.users payload.user_id).isSome ∧
    s'.users = s.users ∧ s'.posts = s.posts ∧ s'.follows = s.follows ∧
    s'.followers = s.followers ∧ s'.likes = s.likes ∧
    s'.hashtag_posts = s.hashtag_posts ∧
    s'.comments = dictSet s.comments cid (newComment post_id payload cid now) ∧
    s'.post_comments = dictAppendToList s.post_comments post_id cid := by
  unfold add_comment at h
  by_cases ht : stripStr payload.text = ""
  · rw [if_pos ht] at h; simp at h
  rw [if_neg ht] at h
  by_cases hp : (dictGet s.posts post_id).isNone = true
  · rw [if_pos hp] at h; simp at h
  rw [if_neg hp] at h
  by_cases hu : (dictGet s.users payload.user_id).isNone = true
  · rw [if_pos hu] at h; simp at h
  rw [if_neg hu] at h
  rw [Prod.mk.injEq] at h
  obtain ⟨-, hs⟩ := h
  subst hs
  refine ⟨?_, ?_, rfl, rfl, rfl, rfl, rfl, rfl, rfl, rfl⟩
  · rcases ho : dictGet s.posts post_id with - | p
    · rw [ho] at hp; simp at hp
    · rfl
  · rcases ho : dictGet s.users payload.user_id with - | u
    · rw [ho] at hu; simp at hu
    · rfl

theorem delete_comment_ok (cid : String) (s s' : St) (r : Unit)
    (h : delete_comment cid s = (Except.ok r, s')) :
    ∃ cm, dictGet s.comments cid = some cm ∧
    s'.users = s.users ∧ s'.posts = s.posts ∧ s'.follows = s.follows ∧
    s'.followers = s.followers ∧ s'.likes = s.likes ∧
    s'.hashtag_posts = s.hashtag_posts ∧
    s'.comments = dictPop s.comments cid ∧
    s'.post_comments =
      (if cid ∈ dictGetD s.post_comments cm.post_id [] then
        dictSet s.post_comments cm.post_id
          ((dictGetD s.post_comments cm.post_id []).erase cid)
      else s.post_comments) := by
  unfold delete_comment at h
  cases hg : dictGet s.comments cid with
  | none => rw [hg] at h; simp at h
  | some cm =>
    rw [hg] at h
    rw [Prod.mk.injEq] at h
    obtain ⟨-, hs⟩ := h
    subst hs
    exact ⟨cm, rfl, rfl, rfl, rfl, rfl, rfl, rfl, rfl, rfl⟩

theorem update_user_shape (user_id : String) (payload : UserUpdate) (s : St) :
    ∃ us, (update_user user_id payload s).2 = { s with users := us } := by
  unfold update_user
  cases dictGet s.users user_id with
  | none => exact ⟨s.users, rfl⟩
  | some u => exact ⟨_, rfl⟩

theorem like_post_shape (p u : String) (s : St) :
    ∃ lk, (like_post p u s).2 = { s with likes := lk } := by
  unfold like_post
  by_cases hp : (dictGet s.posts p).isNone = true
  · rw [if_pos hp]; exact ⟨s.likes, rfl⟩
  rw [if_neg hp]
  by_cases hu : (dictGet s.users u).isNone = true
  · rw [if_pos hu]; exact ⟨s.likes, rfl⟩
  rw [if_neg hu]
  simp only []
  by_cases hm : u ∈ dictGetD s.likes p []
  · rw [if_pos hm]; exact ⟨_, rfl⟩
  · rw [if_neg hm]; exact ⟨_, rfl⟩

theorem unlike_post_shape (p u : String) (s : St) :
    ∃ lk, (unlike_post p u s).2 = { s with likes := lk } := by
  unfold unlike_post
  by_cases hp : (dictGet s.posts p).isNone = true
  · rw [if_pos hp]; exact ⟨s.likes, rfl⟩
  rw [if_neg hp]
  simp only []
  by_cases hm : u ∈ dictGetD s.likes p []
  · rw [if_neg (by simpa using hm)]; exact ⟨_, rfl⟩
  · rw [if_pos (by simpa using hm)]; exact ⟨s.likes, rfl⟩

-- ── Error paths leave the store unchanged (spec §7 atomicity) ────────────────

theorem dictSetdefault_eq_of_some {α : Type} (d : List (String × α))
    (k : String) (v0 w : α) (h : dictGet d k = some w) :
    dictSetdefault d k v0 = d := by
  unfold dictSetdefault
  rw [h]

theorem exists_some_of_mem_getD (d : List (String × List String)) (k b : String)
    (h : b ∈ dictGetD d k []) : ∃ fs, dictGet d k = some fs := by
  unfold dictGetD at h
  cases hg : dictGet d k with
  | none => rw [hg] at h; simp at h
  | some fs => exact ⟨fs, rfl⟩

theorem create_user_err (payload : UserCreate) (uid : String) (now : Nat)
    (s : St) (e : ApiError) (h : (create_user payload uid now s).1 = Except.error e) :
    (create_user payload uid now s).2 = s := by
  unfold create_user at h ⊢
  by_cases hdup : (s.users.any fun x => x.2.username == payload.username) = true
  · rw [if_pos hdup]
  · rw [if_neg hdup] at h; simp at h

theorem update_user_err (user_id : String) (payload : UserUpdate) (s : St)
    (e : ApiError) (h : (update_user user_id payload s).1 = Except.error e) :
    (update_user user_id payload s).2 = s := by
  unfold update_user at h ⊢
  cases hg : dictGet s.users user_id with
  | none => rfl
  | some u => rw [hg] at h; simp at h

theorem create_post_err (payload : PostCreate) (pid : String) (now : Nat)
    (s : St) (e : ApiError) (h : (create_post payload pid now s).1 = Except.error e) :
    (create_post payload pid now s).2 = s := by
  unfold create_post at h ⊢
  by_cases hu : (dictGet s.users payload.user_id).isNone = true
  · rw [if_pos hu]
  · rw [if_neg hu] at h; simp at h

theorem delete_post_err (pid : String) (s : St) (e : ApiError)
    (h : (delete_post pid s).1 = Except.error e) :
    (delete_post pid s).2 = s := by
  unfold delete_post at h ⊢
  cases hg : dictGet s.posts pid with
  | none => rfl
  | some post => rw [hg] at h; simp at h

theorem follow_user_err (a b : String) (s : St) (e : ApiError)
    (h : (follow_user a b s).1 = Except.error e) :
    (follow_user a b s).2 = s := by
  unfold follow_user at h ⊢
  by_cases hab : a = b
  · rw [if_pos hab]
  rw [if_neg hab] at h ⊢
  by_cases hua : (dictGet s.users a).isNone = true
  · rw [if_pos hua]
  rw [if_neg hua] at h ⊢
  by_cases hub : (dictGet s.users b).isNone = true
  · rw [if_pos hub]
  rw [if_neg hub] at h ⊢
  simp only [] at h ⊢
  by_cases hmem : b ∈ dictGetD s.follows a []
  · rw [if_pos hmem]
    obtain ⟨fs, hfs⟩ := exists_some_of_mem_getD s.follows a b hmem
    show { s with follows := dictSetdefault s.follows a [] } = s
    rw [dictSetdefault_eq_of_some s.follows a [] fs hfs]
  · rw [if_neg hmem] at h; simp at h

theorem unfollow_user_err (a b : String) (s : St) (e : ApiError)
    (h : (unfollow_user a b s).1 = Except.error e) :
    (unfollow_user a b s).2 = s := by
  unfold unfollow_user at h ⊢
  by_cases hua : (dictGet s.users a).isNone = true
  · rw [if_pos hua]
  rw [if_neg hua] at h ⊢
  by_cases hub : (dictGet s.users b).isNone = true
  · rw [if_pos hub]
  rw [if_neg hub] at h ⊢
  simp only [] at h ⊢
  by_cases hmem : b ∈ dictGetD s.follows a []
  · rw [if_neg (by simpa using hmem)] at h; simp at h
  · rw [if_pos (by simpa using hmem)]

theorem like_post_err (p u : String) (s : St) (e : ApiError)
    (h : (like_post p u s).1 = Except.error e) :
    (like_post p u s).2 = s := by
  unfold like_post at h ⊢
  by_cases hp : (dictGet s.posts p).isNone = true
  · rw [if_pos hp]
  rw [if_neg hp] at h ⊢
  by_cases hu : (dictGet s.users u).isNone = true
  · rw [if_pos hu]
  rw [if_neg hu] at h ⊢
  simp only [] at h ⊢
  by_cases hmem : u ∈ dictGetD s.likes p []
  · rw [if_pos hmem]
    obtain ⟨fs, hfs⟩ := exists_some_of_mem_getD s.likes p u hmem
    show { s with likes := dictSetdefault s.likes p [] } = s
    rw [dictSetdefault_eq_of_some s.likes p [] fs hfs]
  · rw [if_neg hmem] at h; simp at h

theorem unlike_post_err (p u : String) (s : St) (e : ApiError)
    (h : (unlike_post p u s).1 = Except.error e) :
    (unlike_post p u s).2 = s := by
  unfold unlike_post at h ⊢
  by_cases hp : (dictGet s.posts p).isNone = true
  · rw [if_pos hp]
  rw [if_neg hp] at h ⊢
  simp only [] at h ⊢
  by_cases hmem : u ∈ dictGetD s.likes p []
  · rw [if_neg (by simpa using hmem)] at h; simp at h
  · rw [if_pos (by simpa using hmem)]

theorem add_comment_err (post_id : String) (payload : CommentCreate)
    (cid : String) (now : Nat) (s : St) (e : ApiError)
    (h : (add_comment post_id payload cid now s).1 = Except.error e) :
    (add_comment post_id payload cid now s).2 = s := by
  unfold add_comment at h ⊢
  by_cases ht : stripStr payload.text = ""
  · rw [if_pos ht]
  rw [if_neg ht] at h ⊢
  by_cases hp : (dictGet s.posts post_id).isNone = true
  · rw [if_pos hp]
  rw [if_neg hp] at h ⊢
  by_cases hu : (dictGet s.users payload.user_id).isNone = true
  · rw [if_pos hu]
  · rw [if_neg hu] at h; simp at h

theorem delete_comment_err (cid : String) (s : St) (e : ApiError)
    (h : (delete_comment cid s).1 = Except.error e) :
    (delete_comment cid s).2 = s := by
  unfold delete_comment at h ⊢
  cases hg : dictGet s.comments cid with
  | none => rfl
  | some cm => rw [hg] at h; simp at h

-- ── Invariant preservation ───────────────────────────────────────────────────

theorem stInv_congr (s s' : St) (hf : s'.follows = s.follows)
    (hg : s'.followers = s.followers) (hh : s'.hashtag_posts = s.hashtag_posts)
    (hp : s'.posts = s.posts) (hpc : s'.post_comments = s.post_comments)
    (hc : s'.comments = s.comments) (hi : StInv s) : StInv s' := by
  constructor
  · intro a b
    unfold followingOf followersOf
    rw [hf, hg]
    exact hi.symm a b
  · intro a
    unfold followingOf
    rw [hf]
    exact hi.noSelf a
  · intro t p hp'
    unfold tagPostsOf at hp'
    rw [hh] at hp'
    rw [hp]
    exact hi.tagMem t p hp'
  · intro t
    unfold tagPostsOf
    rw [hh]
    exact hi.tagNodup t
  · intro p seq hs
    rw [hpc] at hs
    exact hi.seqNodup p seq hs
  · intro p seq c hs hc'
    rw [hpc] at hs
    rw [hc]
    exact hi.seqMem p seq c hs hc'
  · intro c cm hcm
    rw [hc] at hcm
    rw [hpc]
    exact hi.cmSeq c cm hcm

theorem stInv_update_user (user_id : String) (payload : UserUpdate) (s : St)
    (hi : StInv s) : StInv (update_user user_id payload s).2 := by
  obtain ⟨us, hs⟩ := update_user_shape user_id payload s
  rw [hs]
  exact stInv_congr s _ rfl rfl rfl rfl rfl rfl hi

theorem stInv_like_post (p u : String) (s : St) (hi : StInv s) :
    StInv (like_post p u s).2 := by
  obtain ⟨lk, hs⟩ := like_post_shape p u s
  rw [hs]
  exact stInv_congr s _ rfl rfl rfl rfl rfl rfl hi

theorem stInv_unlike_post (p u : String) (s : St) (hi : StInv s) :
    StInv (unlike_post p u s).2 := by
  obtain ⟨lk, hs⟩ := unlike_post_shape p u s
  rw [hs]
  exact stInv_congr s _ rfl rfl rfl rfl rfl rfl hi

theorem stInv_create_user (payload : UserCreate) (uid : String) (now : Nat)
    (s : St) (hi : StInv s) : StInv (create_user payload uid now s).2 := by
  cases hr : (create_user payload uid now s).1 with
  | error e =>
    rw [create_user_err payload uid now s e hr]
    exact hi
  | ok r =>
    have h : create_user payload uid now s =
        (Except.ok r, (create_user payload uid now s).2) := by rw [← hr]
    obtain ⟨hus, hf, hg, hp, hlk, hcm, hpc, hhp⟩ := create_user_ok _ _ _ _ _ r h
    constructor
    · intro a b
      unfold followingOf followersOf
      rw [hf, hg, dictGetD_setdefault_nil, dictGetD_setdefault_nil]
      exact hi.symm a b
    · intro a
      unfold followingOf
      rw [hf, dictGetD_setdefault_nil]
      exact hi.noSelf a
    · intro t p hp'
      unfold tagPostsOf at hp'
      rw [hhp] at hp'
      rw [hp]
      exact hi.tagMem t p hp'
    · intro t
      unfold tagPostsOf
      rw [hhp]
      exact hi.tagNodup t
    · intro p seq hs
      rw [hpc] at hs
      exact hi.seqNodup p seq hs
    · intro p seq c hs hc'
      rw [hpc] at hs
      rw [hcm]
      exact hi.seqMem p seq c hs hc'
    · intro c cm hc'
      rw [hcm] at hc'
      rw [hpc]
      exact hi.cmSeq c cm hc'

theorem stInv_follow_user (a b : String) (s : St) (hi : StInv s) :
    StInv (follow_user a b s).2 := by
  cases hr : (follow_user a b s).1 with
  | error e =>
    rw [follow_user_err a b s e hr]
    exact hi
  | ok r =>
    have h : follow_user a b s = (Except.ok r, (follow_user a b s).2) := by
      rw [← hr]
    obtain ⟨hab, -, -, hmem, hus, hps, hlk, hcm, hpc, hhp, hfwd, hbwd⟩ :=
      follow_user_ok a b s _ r h
    constructor
    · intro x y
      rw [hfwd x, hbwd y]
      by_cases hx : x = a <;> by_cases hy : y = b
      · rw [if_pos hx, if_pos hy, hx, hy]
        constructor
        · intro _
          exact (mem_setAdd _ _ _).mpr (Or.inl rfl)
        · intro _
          exact (mem_setAdd _ _ _).mpr (Or.inl rfl)
      · rw [if_pos hx, if_neg hy, hx]
        constructor
        · intro hm
          rcases (mem_setAdd _ _ _).mp hm with rfl | hm'
          · exact absurd rfl hy
          · exact (hi.symm a y).mp hm'
        · intro hm
          exact (mem_setAdd _ _ _).mpr (Or.inr ((hi.symm a y).mpr hm))
      · rw [if_neg hx, if_pos hy, hy]
        constructor
        · intro hm
          exact (mem_setAdd _ _ _).mpr (Or.inr ((hi.symm x b).mp hm))
        · intro hm
          rcases (mem_setAdd _ _ _).mp hm with rfl | hm'
          · exact absurd rfl hx
          · exact (hi.symm x b).mpr hm'
      · rw [if_neg hx, if_neg hy]
        exact hi.symm x y
    · intro x
      rw [hfwd x]
      by_cases hx : x = a
      · rw [if_pos hx, hx]
        intro hm
        rcases (mem_setAdd _ _ _).mp hm with hba | hm'
        · exact hab hba
        · exact hi.noSelf a hm'
      · rw [if_neg hx]
        exact hi.noSelf x
    · intro t p hp'
      unfold tagPostsOf at hp'
      rw [hhp] at hp'
      rw [hps]
      exact hi.tagMem t p hp'
    · intro t
      unfold tagPostsOf
      rw [hhp]
      exact hi.tagNodup t
    · intro p seq hs
      rw [hpc] at hs
      exact hi.seqNodup p seq hs
    · intro p seq c hs hc'
      rw [hpc] at hs
      rw [hcm]
      exact hi.seqMem p seq c hs hc'
    · intro c cm hc'
      rw [hcm] at hc'
      rw [hpc]
      exact hi.cmSeq c cm hc'

theorem stInv_unfollow_user (a b : String) (s : St) (hi : StInv s) :
    StInv (unfollow_user a b s).2 := by
  cases hr : (unfollow_user a b s).1 with
  | error e =>
    rw [unfollow_user_err a b s e hr]
    exact hi
  | ok r =>
    have h : unfollow_user a b s = (Except.ok r, (unfollow_user a b s).2) := by
      rw [← hr]
    obtain ⟨-, -, hmem, hus, hps, hlk, hcm, hpc, hhp, hfwd, hbwd⟩ :=
      unfollow_user_ok a b s _ r h
    constructor
    · intro x y
      rw [hfwd x, hbwd y]
      by_cases hx : x = a <;> by_cases hy : y = b
      · rw [if_pos hx, if_pos hy, hx, hy]
        constructor
        · intro hm
          exact absurd rfl ((mem_setDiscard _ _ _).mp hm).2
        · intro hm
          exact absurd rfl ((mem_setDiscard _ _ _).mp hm).2
      · rw [if_pos hx, if_neg hy, hx]
        constructor
        · intro hm
          exact (hi.symm a y).mp ((mem_setDiscard _ _ _).mp hm).1
        · intro hm
          exact (mem_setDiscard _ _ _).mpr ⟨(hi.symm a y).mpr hm, hy⟩
      · rw [if_neg hx, if_pos hy, hy]
        constructor
        · intro hm
          exact (mem_setDiscard _ _ _).mpr ⟨(hi.symm x b).mp hm, hx⟩
        · intro hm
          exact (hi.symm x b).mpr ((mem_setDiscard _ _ _).mp hm).1
      · rw [if_neg hx, if_neg hy]
        exact hi.symm x y
    · intro x
      rw [hfwd x]
      by_cases hx : x = a
      · rw [if_pos hx, hx]
        intro hm
        exact hi.noSelf a ((mem_setDiscard _ _ _).mp hm).1
      · rw [if_neg hx]
        exact hi.noSelf x
    · intro t p hp'
      unfold tagPostsOf at hp'
      rw [hhp] at hp'
      rw [hps]
      exact hi.tagMem t p hp'
    · intro t
      unfold tagPostsOf
      rw [hhp]
      exact hi.tagNodup t
    · intro p seq hs
      rw [hpc] at hs
      exact hi.seqNodup p seq hs
    · intro p seq c hs hc'
      rw [hpc] at hs
      rw [hcm]
      exact hi.seqMem p seq c hs hc'
    · intro c cm hc'
      rw [hcm] at hc'
      rw [hpc]
      exact hi.cmSeq c cm hc'

theorem stInv_create_post (payload : PostCreate) (pid : String) (now : Nat)
    (s : St) (hfresh : dictGet s.posts pid = none) (hi : StInv s) :
    StInv (create_post payload pid now s).2 := by
  cases hr : (create_post payload pid now s).1 with
  | error e =>
    rw [create_post_err _ _ _ _ e hr]
    exact hi
  | ok r =>
    have h : create_post payload pid now s =
        (Except.ok r, (create_post payload pid now s).2) := by rw [← hr]
    obtain ⟨-, hus, hf, hg, hcm, hps, hlk, hpc, hhp⟩ := create_post_ok _ _ _ _ _ r h
    constructor
    · intro x y
      unfold followingOf followersOf
      rw [hf, hg]
      exact hi.symm x y
    · intro x
      unfold followingOf
      rw [hf]
      exact hi.noSelf x
    · intro t p hp'
      unfold tagPostsOf at hp'
      rw [hhp, mem_foldl_dictAddToSet] at hp'
      rcases hp' with ⟨hppid, hmem⟩ | hp'
      · refine ⟨newPost payload pid now, ?_, hmem⟩
        rw [hps, dictGet_dictSet, if_pos hppid]
      · obtain ⟨post, hpost, htag⟩ := hi.tagMem t p hp'
        have hne : ¬ p = pid := by
          intro hpe
          rw [hpe, hfresh] at hpost
          exact Option.noConfusion hpost
        refine ⟨post, ?_, htag⟩
        rw [hps, dictGet_dictSet, if_neg hne]
        exact hpost
    · intro t
      unfold tagPostsOf
      rw [hhp]
      exact nodup_foldl_dictAddToSet _ pid s.hashtag_posts (fun u => hi.tagNodup u) t
    · intro p seq hs
      rw [hpc, dictGet_dictSetdefault] at hs
      by_cases hp' : p = pid
      · rw [if_pos hp'] at hs
        cases hg2 : dictGet s.post_comments pid with
        | none =>
          rw [hg2] at hs
          injection hs with hs
          rw [← hs]
          exact List.nodup_nil
        | some sq =>
          rw [hg2] at hs
          injection hs with hs
          rw [← hs]
          exact hi.seqNodup pid sq hg2
      · rw [if_neg hp'] at hs
        exact hi.seqNodup p seq hs
    · intro p seq c hs hcmem
      rw [hpc, dictGet_dictSetdefault] at hs
      rw [hcm]
      by_cases hp' : p = pid
      · rw [if_pos hp'] at hs
        cases hg2 : dictGet s.post_comments pid with
        | none =>
          rw [hg2] at hs
          injection hs with hs
          rw [← hs] at hcmem
          exact absurd hcmem (List.not_mem_nil c)
        | some sq =>
          rw [hg2] at hs
          injection hs with hs
          rw [← hs] at hcmem
          rw [hp']
          exact hi.seqMem pid sq c hg2 hcmem
      · rw [if_neg hp'] at hs
        exact hi.seqMem p seq c hs hcmem
    · intro c cm hc'
      rw [hcm] at hc'
      obtain ⟨seq, hseq, hcmem⟩ := hi.cmSeq c cm hc'
      rw [hpc]
      rw [dictGet_dictSetdefault]
      by_cases hp' : cm.post_id = pid
      · refine ⟨seq, ?_, hcmem⟩
        rw [if_pos hp']
        rw [hp'] at hseq
        rw [hseq]
        rfl
      · refine ⟨seq, ?_, hcmem⟩
        rw [if_neg hp']
        exact hseq

theorem stInv_delete_post (pid : String) (s : St) (hi : StInv s) :
    StInv (delete_post pid s).2 := by
  cases hr : (delete_post pid s).1 with
  | error e =>
    rw [delete_post_err _ _ e hr]
    exact hi
  | ok r =>
    have h : delete_post pid s = (Except.ok r, (delete_post pid s).2) := by
      rw [← hr]
    obtain ⟨post, hpost, hus, hf, hg, hhp, hpc, hcm, hlk, hps⟩ :=
      delete_post_ok _ _ _ r h
    constructor
    · intro x y
      unfold followingOf followersOf
      rw [hf, hg]
      exact hi.symm x y
    · intro x
      unfold followingOf
      rw [hf]
      exact hi.noSelf x
    · intro t p hp'
      unfold tagPostsOf at hp'
      rw [hhp, mem_foldl_deindexTag] at hp'
      obtain ⟨hmem, himp⟩ := hp'
      obtain ⟨post', hpost', htag⟩ := hi.tagMem t p hmem
      have hne : ¬ p = pid := by
        intro hpe
        subst hpe
        rw [hpost] at hpost'
        injection hpost' with he
        refine himp ?_ rfl
        rw [he]
        exact htag
      refine ⟨post', ?_, htag⟩
      rw [hps, dictGet_dictPop, if_neg hne]
      exact hpost'
    · intro t
      unfold tagPostsOf
      rw [hhp]
      exact nodup_foldl_deindexTag _ pid s.hashtag_posts (fun u => hi.tagNodup u) t
    · intro p seq hs
      rw [hpc, dictGet_dictPop] at hs
      by_cases hp' : p = pid
      · rw [if_pos hp'] at hs
        exact Option.noConfusion hs
      · rw [if_neg hp'] at hs
        exact hi.seqNodup p seq hs
    · intro p seq c hs hcmem
      rw [hpc, dictGet_dictPop] at hs
      by_cases hp' : p = pid
      · rw [if_pos hp'] at hs
        exact Option.noConfusion hs
      · rw [if_neg hp'] at hs
        obtain ⟨cm, hcmg, hcpid, hcid⟩ := hi.seqMem p seq c hs hcmem
        refine ⟨cm, ?_, hcpid, hcid⟩
        rw [hcm, dictGet_foldl_dictPop]
        have hnotin : c ∉ dictGetD s.post_comments pid [] := by
          intro hin
          obtain ⟨sq2, hsq2⟩ := exists_some_of_mem_getD s.post_comments pid c hin
          have hin2 : c ∈ sq2 := by
            unfold dictGetD at hin
            rw [hsq2] at hin
            exact hin
          obtain ⟨cm2, hcm2, hcpid2, -⟩ := hi.seqMem pid sq2 c hsq2 hin2
          rw [hcmg] at hcm2
          injection hcm2 with he
          rw [← he] at hcpid2
          exact hp' (hcpid.symm.trans hcpid2)
        rw [if_neg hnotin]
        exact hcmg
    · intro c cm hc'
      rw [hcm, dictGet_foldl_dictPop] at hc'
      by_cases hcin : c ∈ dictGetD s.post_comments pid []
      · rw [if_pos hcin] at hc'
        exact Option.noConfusion hc'
      · rw [if_neg hcin] at hc'
        obtain ⟨seq, hseq, hcm2⟩ := hi.cmSeq c cm hc'
        have hne : ¬ cm.post_id = pid := by
          intro hpe
          rw [hpe] at hseq
          apply hcin
          unfold dictGetD
          rw [hseq]
          exact hcm2
        refine ⟨seq, ?_, hcm2⟩
        rw [hpc, dictGet_dictPop, if_neg hne]
        exact hseq

theorem stInv_add_comment (post_id : String) (payload : CommentCreate)
    (cid : String) (now : Nat) (s : St)
    (hfresh : dictGet s.comments cid = none) (hi : StInv s) :
    StInv (add_comment post_id payload cid now s).2 := by
  cases hr : (add_comment post_id payload cid now s).1 with
  | error e =>
    rw [add_comment_err _ _ _ _ _ e hr]
    exact hi
  | ok r =>
    have h : add_comment post_id payload cid now s =
        (Except.ok r, (add_comment post_id payload cid now s).2) := by rw [← hr]
    obtain ⟨-, -, hus, hps, hf, hg, hlk, hhp, hcm, hpc⟩ := add_comment_ok _ _ _ _ _ _ r h
    have hnotold : ∀ sq, dictGet s.post_comments post_id = some sq → cid ∉ sq := by
      intro sq hsq hin
      obtain ⟨cm2, hcm2, -, -⟩ := hi.seqMem post_id sq cid hsq hin
      rw [hfresh] at hcm2
      exact Option.noConfusion hcm2
    constructor
    · intro x y
      unfold followingOf followersOf
      rw [hf, hg]
      exact hi.symm x y
    · intro x
      unfold followingOf
      rw [hf]
      exact hi.noSelf x
    · intro t p hp'
      unfold tagPostsOf at hp'
      rw [hhp] at hp'
      rw [hps]
      exact hi.tagMem t p hp'
    · intro t
      unfold tagPostsOf
      rw [hhp]
      exact hi.tagNodup t
    · intro p seq hs
      rw [hpc, dictGet_dictAppendToList] at hs
      by_cases hp' : p = post_id
      · rw [if_pos hp'] at hs
        injection hs with hs
        rw [← hs]
        cases hg2 : dictGet s.post_comments post_id with
        | none =>
          unfold dictGetD
          rw [hg2]
          exact List.nodup_singleton cid
        | some sq =>
          unfold dictGetD
          rw [hg2]
          have hnot : cid ∉ sq := hnotold sq hg2
          have heq : sq ++ [cid] = setAdd sq cid := (if_neg hnot).symm
          rw [Option.getD_some, heq]
          exact nodup_setAdd sq cid (hi.seqNodup post_id sq hg2)
      · rw [if_neg hp'] at hs
        exact hi.seqNodup p seq hs
    · intro p seq c hs hcmem
      rw [hpc, dictGet_dictAppendToList] at hs
      rw [hcm]
      by_cases hp' : p = post_id
      · rw [if_pos hp'] at hs
        injection hs with hs
        rw [← hs] at hcmem
        rcases List.mem_append.mp hcmem with hold | hnew
        · have hsome : ∃ sq, dictGet s.post_comments post_id = some sq := by
            refine exists_some_of_mem_getD s.post_comments post_id c ?_
            exact hold
          obtain ⟨sq, hsq⟩ := hsome
          have hold2 : c ∈ sq := by
            unfold dictGetD at hold
            rw [hsq] at hold
            exact hold
          obtain ⟨cm, hcmg, hcpid, hcid⟩ := hi.seqMem post_id sq c hsq hold2
          have hcne : ¬ c = cid := by
            intro hce
            rw [hce, hfresh] at hcmg
            exact Option.noConfusion hcmg
          refine ⟨cm, ?_, by rw [hp']; exact hcpid, hcid⟩
          rw [dictGet_dictSet, if_neg hcne]
          exact hcmg
        · have hce : c = cid := by simpa using hnew
          refine ⟨newComment post_id payload cid now, ?_, ?_, ?_⟩
          · rw [dictGet_dictSet, if_pos hce]
          · rw [hp']; rfl
          · rw [hce]; rfl
      · rw [if_neg hp'] at hs
        obtain ⟨cm, hcmg, hcpid, hcid⟩ := hi.seqMem p seq c hs hcmem
        have hcne : ¬ c = cid := by
          intro hce
          rw [hce, hfresh] at hcmg
          exact Option.noConfusion hcmg
        refine ⟨cm, ?_, hcpid, hcid⟩
        rw [dictGet_dictSet, if_neg hcne]
        exact hcmg
    · intro c cm hc'
      rw [hcm, dictGet_dictSet] at hc'
      rw [hpc]
      by_cases hce : c = cid
      · rw [if_pos hce] at hc'
        injection hc' with hc'
        rw [dictGet_dictAppendToList]
        rw [← hc']
        refine ⟨dictGetD s.post_comments post_id [] ++ [cid], ?_, ?_⟩
        · rw [if_pos (show (newComment post_id payload cid now).post_id = post_id by rfl)]
        · rw [hce]
          exact List.mem_append.mpr (Or.inr (List.mem_singleton.mpr rfl))
      · rw [if_neg hce] at hc'
        obtain ⟨seq, hseq, hcmem⟩ := hi.cmSeq c cm hc'
        rw [dictGet_dictAppendToList]
        by_cases hp' : cm.post_id = post_id
        · refine ⟨dictGetD s.post_comments post_id [] ++ [cid], ?_, ?_⟩
          · rw [if_pos hp']
          · refine List.mem_append.mpr (Or.inl ?_)
            unfold dictGetD
            rw [hp'] at hseq
            rw [hseq]
            exact hcmem
        · refine ⟨seq, ?_, hcmem⟩
          rw [if_neg hp']
          exact hseq

theorem stInv_delete_comment (cid : String) (s : St) (hi : StInv s) :
    StInv (delete_comment cid s).2 := by
  cases hr : (delete_comment cid s).1 with
  | error e =>
    rw [delete_comment_err _ _ e hr]
    exact hi
  | ok r =>
    have h : delete_comment cid s = (Except.ok r, (delete_comment cid s).2) := by
      rw [← hr]
    obtain ⟨cm0, hg0, hus, hps, hf, hg, hlk, hhp, hcm, hpc⟩ :=
      delete_comment_ok _ _ _ r h
    constructor
    · intro x y
      unfold followingOf followersOf
      rw [hf, hg]
      exact hi.symm x y
    · intro x
      unfold followingOf
      rw [hf]
      exact hi.noSelf x
    · intro t p hp'
      unfold tagPostsOf at hp'
      rw [hhp] at hp'
      rw [hps]
      exact hi.tagMem t p hp'
    · intro t
      unfold tagPostsOf
      rw [hhp]
      exact hi.tagNodup t
    · intro p seq hs
      rw [hpc] at hs
      by_cases hin : cid ∈ dictGetD s.post_comments cm0.post_id []
      · rw [if_pos hin] at hs
        rw [dictGet_dictSet] at hs
        by_cases hp' : p = cm0.post_id
        · rw [if_pos hp'] at hs
          injection hs with hs
          rw [← hs]
          obtain ⟨sq, hsq⟩ := exists_some_of_mem_getD s.post_comments cm0.post_id cid hin
          have hnn : (dictGetD s.post_comments cm0.post_id []).Nodup := by
            unfold dictGetD
            rw [hsq]
            exact hi.seqNodup cm0.post_id sq hsq
          exact hnn.erase cid
        · rw [if_neg hp'] at hs
          exact hi.seqNodup p seq hs
      · rw [if_neg hin] at hs
        exact hi.seqNodup p seq hs
    · intro p seq c hs hcmem
      rw [hpc] at hs
      rw [hcm, dictGet_dictPop]
      by_cases hin : cid ∈ dictGetD s.post_comments cm0.post_id []
      · rw [if_pos hin] at hs
        rw [dictGet_dictSet] at hs
        obtain ⟨sq, hsq⟩ := exists_some_of_mem_getD s.post_comments cm0.post_id cid hin
        have hlst : dictGetD s.post_comments cm0.post_id [] = sq := by
          unfold dictGetD
          rw [hsq]
          rfl
        by_cases hp' : p = cm0.post_id
        · rw [if_pos hp'] at hs
          injection hs with hs
          rw [← hs, hlst] at hcmem
          have hnn : sq.Nodup := hi.seqNodup cm0.post_id sq hsq
          obtain ⟨hcne, hcsq⟩ := hnn.mem_erase_iff.mp hcmem
          obtain ⟨cm, hcmg, hcpid, hcid⟩ := hi.seqMem cm0.post_id sq c hsq hcsq
          refine ⟨cm, ?_, by rw [hp']; exact hcpid, hcid⟩
          rw [if_neg hcne]
          exact hcmg
        · rw [if_neg hp'] at hs
          obtain ⟨cm, hcmg, hcpid, hcid⟩ := hi.seqMem p seq c hs hcmem
          have hcne : ¬ c = cid := by
            intro hce
            rw [hce] at hcmg
            rw [hg0] at hcmg
            injection hcmg with he
            rw [← he] at hcpid
            exact hp' hcpid.symm
          refine ⟨cm, ?_, hcpid, hcid⟩
          rw [if_neg hcne]
          exact hcmg
      · rw [if_neg hin] at hs
        obtain ⟨cm, hcmg, hcpid, hcid⟩ := hi.seqMem p seq c hs hcmem
        have hcne : ¬ c = cid := by
          intro hce
          rw [hce] at hcmg
          rw [hg0] at hcmg
          injection hcmg with he
          apply hin
          obtain ⟨sq0, hsq0, hin0⟩ := hi.cmSeq cid cm0 hg0
          unfold dictGetD
          rw [hsq0]
          exact hin0
        refine ⟨cm, ?_, hcpid, hcid⟩
        rw [if_neg hcne]
        exact hcmg
    · intro c cm hc'
      rw [hcm, dictGet_dictPop] at hc'
      by_cases hce : c = cid
      · rw [if_pos hce] at hc'
        exact Option.noConfusion hc'
      · rw [if_neg hce] at hc'
        obtain ⟨seq, hseq, hcmem⟩ := hi.cmSeq c cm hc'
        rw [hpc]
        by_cases hin : cid ∈ dictGetD s.post_comments cm0.post_id []
        · rw [if_pos hin]
          rw [dictGet_dictSet]
          obtain ⟨sq, hsq⟩ := exists_some_of_mem_getD s.post_comments cm0.post_id cid hin
          have hlst : dictGetD s.post_comments cm0.post_id [] = sq := by
            unfold dictGetD
            rw [hsq]
            rfl
          by_cases hp' : cm.post_id = cm0.post_id
          · have hseq2 : seq = sq := by
              rw [hp', hsq] at hseq
              injection hseq with he
              exact he.symm
            refine ⟨(dictGetD s.post_comments cm0.post_id []).erase cid, ?_, ?_⟩
            · rw [if_pos hp']
            · rw [hlst]
              have hnn : sq.Nodup := hi.seqNodup cm0.post_id sq hsq
              refine hnn.mem_erase_iff.mpr ⟨hce, ?_⟩
              rw [← hseq2]
              exact hcmem
          · refine ⟨seq, ?_, hcmem⟩
            rw [if_neg hp']
            exact hseq
        · rw [if_neg hin]
          exact ⟨seq, hseq, hcmem⟩

theorem stInv_empty : StInv St.empty := by
  constructor
  · intro a b
    simp [followingOf, followersOf, dictGetD, dictGet, St.empty]
  · intro a
    simp [followingOf, dictGetD, dictGet, St.empty]
  · intro t p hp'
    simp [tagPostsOf, dictGetD, dictGet, St.empty] at hp'
  · intro t
    simp [tagPostsOf, dictGetD, dictGet, St.empty]
  · intro p seq hs
    exact Option.noConfusion hs
  · intro p seq c hs hc'
    exact Option.noConfusion hs
  · intro c cm hcm
    exact Option.noConfusion hcm

theorem stInv_step {s s' : St} (hstep : Step s s') (hi : StInv s) : StInv s' := by
  cases hstep with
  | createUser payload uid now hfresh => exact stInv_create_user payload uid now s hi
  | updateUser user_id payload => exact stInv_update_user user_id payload s hi
  | createPost payload pid now hfresh => exact stInv_create_post payload pid now s hfresh hi
  | deletePost pid => exact stInv_delete_post pid s hi
  | followUser a b => exact stInv_follow_user a b s hi
  | unfollowUser a b => exact stInv_unfollow_user a b s hi
  | likePost p u => exact stInv_like_post p u s hi
  | unlikePost p u => exact stInv_unlike_post p u s hi
  | addComment pid payload cid now hfresh => exact stInv_add_comment pid payload cid now s hfresh hi
  | deleteComment cid => exact stInv_delete_comment cid s hi

theorem stInv_reachable {s : St} (h : Reachable s) : StInv s := by
  induction h with
  | init => exact stInv_empty
  | step hr hstep ih => exact stInv_step hstep ih

-- ── Sorting lemmas ───────────────────────────────────────────────────────────

theorem insertBy_perm {α : Type} (le : α → α → Bool) (x : α) (l : List α) :
    (insertBy le x l).Perm (x :: l) := by
  induction l with
  | nil => simp [insertBy]
  | cons y ys ih =>
    unfold insertBy
    by_cases h : le x y = true
    · rw [if_pos h]
    · rw [if_neg h]
      exact (ih.cons y).trans (List.Perm.swap x y ys)

theorem sortBy_perm {α : Type} (le : α → α → Bool) (l : List α) :
    (sortBy le l).Perm l := by
  induction l with
  | nil => simp [sortBy]
  | cons x xs ih =>
    unfold sortBy
    exact (insertBy_perm le x (sortBy le xs)).trans (ih.cons x)

theorem pairwise_insertBy {α : Type} (le : α → α → Bool)
    (htot : ∀ a b, le a b = true ∨ le b a = true)
    (htrans : ∀ a b c, le a b = true → le b c = true → le a c = true)
    (x : α) (l : List α) (hl : l.Pairwise (fun a b => le a b = true)) :
    (insertBy le x l).Pairwise (fun a b => le a b = true) := by
  induction l with
  | nil => simp [insertBy]
  | cons y ys ih =>
    rw [List.pairwise_cons] at hl
    obtain ⟨hy, hys⟩ := hl
    unfold insertBy
    by_cases h : le x y = true
    · rw [if_pos h]
      refine List.Pairwise.cons ?_ (List.Pairwise.cons hy hys)
      intro z hz
      rcases List.mem_cons.mp hz with rfl | hz
      · exact h
      · exact htrans x y z h (hy z hz)
    · rw [if_neg h]
      have hyx : le y x = true := (htot x y).resolve_left h
      refine List.Pairwise.cons ?_ (ih hys)
      intro z hz
      have hz' : z ∈ x :: ys := (insertBy_perm le x ys).mem_iff.mp hz
      rcases List.mem_cons.mp hz' with rfl | hz'
      · exact hyx
      · exact hy z hz'

theorem pairwise_sortBy {α : Type} (le : α → α → Bool)
    (htot : ∀ a b, le a b = true ∨ le b a = true)
    (htrans : ∀ a b c, le a b = true → le b c = true → le a c = true)
    (l : List α) :
    (sortBy le l).Pairwise (fun a b => le a b = true) := by
  induction l with
  | nil => simp [sortBy]
  | cons x xs ih =>
    unfold sortBy
    exact pairwise_insertBy le htot htrans x (sortBy le xs) ih

-- ── Shared concrete scenario states (for witnesses) ──────────────────────────

/-- Two pre-registered users "a" and "b", as `create_user` would store them. -/
def demoUser (i : String) : User :=
  { id := i, username := i, display_name := i, bio := "", profile_pic_url := "",
    created_at := 0 }

/-- A store holding exactly the users "a" and "b" with empty indexes. -/
def twoUserSt : St :=
  { users := [("a", demoUser "a"), ("b", demoUser "b")], posts := [],
    follows := [("a", []), ("b", [])], followers := [("a", []), ("b", [])],
    likes := [], comments := [], post_comments := [], hashtag_posts := [] }

def demoUserPayload : UserCreate := ⟨"alice", "Alice", "", ""⟩

def demoS1 : St := (create_user demoUserPayload "u1" 0 St.empty).2

def demoPostPayload : PostCreate := ⟨"u1", "img.jpg", MediaType.image, "Hi #fun"⟩

def demoS2 : St := (create_post demoPostPayload "p1" 1 demoS1).2

def demoCommentPayload : CommentCreate := ⟨"u1", "Nice"⟩

def demoS3 : St := (add_comment "p1" demoCommentPayload "c1" 2 demoS2).2

theorem demoReach3 : Reachable demoS3 :=
  Reachable.step
    (Reachable.step
      (Reachable.step Reachable.init
        (Step.createUser St.empty demoUserPayload "u1" 0 rfl))
      (Step.createPost demoS1 demoPostPayload "p1" 1 rfl))
    (Step.addComment demoS2 "p1" demoCommentPayload "c1" 2 rfl)

-- ── C1 ───────────────────────────────────────────────────────────────────────

/-- C1: in every reachable state the follow index is symmetric — `b` is in
`a`'s following set iff `a` is in `b`'s followers set; after a successful
`follow(a,b)` both memberships hold, and after a successful `unfollow(a,b)`
neither holds. -/
theorem c1_follow_index_symmetry :
    (∀ s, Reachable s → ∀ a b, b ∈ followingOf s a ↔ a ∈ followersOf s b) ∧
    (∀ a b s s' r, follow_user a b s = (Except.ok r, s') →
      b ∈ followingOf s' a ∧ a ∈ followersOf s' b) ∧
    (∀ a b s s' r, unfollow_user a b s = (Except.ok r, s') →
      b ∉ followingOf s' a ∧ a ∉ followersOf s' b) := by
  refine ⟨?_, ?_, ?_⟩
  · intro s hre a b
    exact (stInv_reachable hre).symm a b
  · intro a b s s' r h
    obtain ⟨hab, -, -, hmem, -, -, -, -, -, -, hfwd, hbwd⟩ :=
      follow_user_ok a b s s' r h
    constructor
    · rw [hfwd a, if_pos rfl]
      exact (mem_setAdd _ _ _).mpr (Or.inl rfl)
    · rw [hbwd b, if_pos rfl]
      exact (mem_setAdd _ _ _).mpr (Or.inl rfl)
  · intro a b s s' r h
    obtain ⟨-, -, hmem, -, -, -, -, -, -, hfwd, hbwd⟩ :=
      unfollow_user_ok a b s s' r h
    constructor
    · rw [hfwd a, if_pos rfl]
      intro hm
      exact ((mem_setDiscard _ _ _).mp hm).2 rfl
    · rw [hbwd b, if_pos rfl]
      intro hm
      exact ((mem_setDiscard _ _ _).mp hm).2 rfl

/-- Witness for C1 at concrete inputs. -/
theorem c1_follow_index_symmetry_witness :
    ("x" ∈ followingOf St.empty "y" ↔ "y" ∈ followersOf St.empty "x") ∧
    ("b" ∈ followingOf (follow_user "a" "b" twoUserSt).2 "a" ∧
     "a" ∈ followersOf (follow_user "a" "b" twoUserSt).2 "b") ∧
    ("b" ∉ followingOf (unfollow_user "a" "b" (follow_user "a" "b" twoUserSt).2).2 "a" ∧
     "a" ∉ followersOf (unfollow_user "a" "b" (follow_user "a" "b" twoUserSt).2).2 "b") :=
  ⟨c1_follow_index_symmetry.1 St.empty Reachable.init "y" "x",
   c1_follow_index_symmetry.2.1 "a" "b" twoUserSt _ () rfl,
   c1_follow_index_symmetry.2.2 "a" "b" (follow_user "a" "b" twoUserSt).2 _ () rfl⟩

-- ── C3 ───────────────────────────────────────────────────────────────────────

/-- C3: every public mutation that returns a failure outcome leaves the whole
store unchanged — validation happens before any mutation is committed. -/
theorem c3_atomic_failure :
    (∀ payload uid now (s : St) e, (create_user payload uid now s).1 = Except.error e →
      (create_user payload uid now s).2 = s) ∧
    (∀ payload pid now (s : St) e, (create_post payload pid now s).1 = Except.error e →
      (create_post payload pid now s).2 = s) ∧
    (∀ pid payload cid now (s : St) e,
      (add_comment pid payload cid now s).1 = Except.error e →
      (add_comment pid payload cid now s).2 = s) ∧
    (∀ a b (s : St) e, (follow_user a b s).1 = Except.error e →
      (follow_user a b s).2 = s) ∧
    (∀ a b (s : St) e, (unfollow_user a b s).1 = Except.error e →
      (unfollow_user a b s).2 = s) ∧
    (∀ p u (s : St) e, (like_post p u s).1 = Except.error e →
      (like_post p u s).2 = s) ∧
    (∀ p u (s : St) e, (unlike_post p u s).1 = Except.error e →
      (unlike_post p u s).2 = s) ∧
    (∀ pid (s : St) e, (delete_post pid s).1 = Except.error e →
      (delete_post pid s).2 = s) ∧
    (∀ cid (s : St) e, (delete_comment cid s).1 = Except.error e →
      (delete_comment cid s).2 = s) :=
  ⟨fun payload uid now s e h => create_user_err payload uid now s e h,
   fun payload pid now s e h => create_post_err payload pid now s e h,
   fun pid payload cid now s e h => add_comment_err pid payload cid now s e h,
   fun a b s e h => follow_user_err a b s e h,
   fun a b s e h => unfollow_user_err a b s e h,
   fun p u s e h => like_post_err p u s e h,
   fun p u s e h => unlike_post_err p u s e h,
   fun pid s e h => delete_post_err pid s e h,
   fun cid s e h => delete_comment_err cid s e h⟩

/-- Witness for C3: one failing call of each mutation, each leaving the store
unchanged. -/
theorem c3_atomic_failure_witness :
    (create_user ⟨"a", "x", "", ""⟩ "z" 0 twoUserSt).2 = twoUserSt ∧
    (create_post ⟨"nobody", "m", MediaType.image, ""⟩ "p" 0 St.empty).2 = St.empty ∧
    (add_comment "p" ⟨"u", " "⟩ "c" 0 St.empty).2 = St.empty ∧
    (follow_user "a" "a" twoUserSt).2 = twoUserSt ∧
    (unfollow_user "a" "b" twoUserSt).2 = twoUserSt ∧
    (like_post "p" "u" St.empty).2 = St.empty ∧
    (unlike_post "p" "u" St.empty).2 = St.empty ∧
    (delete_post "p" St.empty).2 = St.empty ∧
    (delete_comment "c" St.empty).2 = St.empty :=
  ⟨c3_atomic_failure.1 _ _ _ _ ⟨409, "Username already taken"⟩ rfl,
   c3_atomic_failure.2.1 _ _ _ _ ⟨404, "User not found"⟩ rfl,
   c3_atomic_failure.2.2.1 _ _ _ _ _ ⟨422, "Comment text must not be blank"⟩ rfl,
   c3_atomic_failure.2.2.2.1 _ _ _ ⟨400, "Cannot follow yourself"⟩ rfl,
   c3_atomic_failure.2.2.2.2.1 _ _ _ ⟨404, "Not following this user"⟩ rfl,
   c3_atomic_failure.2.2.2.2.2.1 _ _ _ ⟨404, "Post not found"⟩ rfl,
   c3_atomic_failure.2.2.2.2.2.2.1 _ _ _ ⟨404, "Post not found"⟩ rfl,
   c3_atomic_failure.2.2.2.2.2.2.2.1 _ _ ⟨404, "Post not found"⟩ rfl,
   c3_atomic_failure.2.2.2.2.2.2.2.2 _ _ ⟨404, "Comment not found"⟩ rfl⟩

-- ── C8 ───────────────────────────────────────────────────────────────────────

theorem follow_user_conflict (a b : String) (s : St) (hab : a ≠ b)
    (ha : (dictGet s.users a).isSome) (hb : (dictGet s.users b).isSome)
    (hmem : b ∈ followingOf s a) :
    follow_user a b s = (Except.error ⟨409, "Already following this user"⟩, s) := by
  obtain ⟨ua, hua⟩ := Option.isSome_iff_exists.mp ha
  obtain ⟨ub, hub⟩ := Option.isSome_iff_exists.mp hb
  unfold follow_user
  rw [if_neg hab, hua, hub]
  rw [if_neg (by simp), if_neg (by simp)]
  simp only []
  rw [if_pos (show b ∈ dictGetD s.follows a [] from hmem)]
  obtain ⟨fs, hfs⟩ := exists_some_of_mem_getD s.follows a b hmem
  rw [dictSetdefault_eq_of_some s.follows a [] fs hfs]

theorem like_post_conflict (p u : String) (s : St)
    (hp : (dictGet s.posts p).isSome) (hu : (dictGet s.users u).isSome)
    (hmem : u ∈ dictGetD s.likes p []) :
    like_post p u s = (Except.error ⟨409, "Post already liked by this user"⟩, s) := by
  obtain ⟨pp, hpp⟩ := Option.isSome_iff_exists.mp hp
  obtain ⟨uu, huu⟩ := Option.isSome_iff_exists.mp hu
  unfold like_post
  rw [hpp, huu]
  rw [if_neg (by simp), if_neg (by simp)]
  simp only []
  rw [if_pos hmem]
  obtain ⟨fs, hfs⟩ := exists_some_of_mem_getD s.likes p u hmem
  rw [dictSetdefault_eq_of_some s.likes p [] fs hfs]

theorem like_post_ok (p u : String) (s s' : St) (r : Unit)
    (h : like_post p u s = (Except.ok r, s')) :
    (dictGet s.posts p).isSome ∧ (dictGet s.users u).isSome ∧
    u ∉ dictGetD s.likes p [] ∧
    s'.users = s.users ∧ s'.posts = s.posts ∧ s'.follows = s.follows ∧
    s'.followers = s.followers ∧ s'.comments = s.comments ∧
    s'.post_comments = s.post_comments ∧ s'.hashtag_posts = s.hashtag_posts ∧
    (∀ q, dictGetD s'.likes q [] =
      if q = p then setAdd (dictGetD s.likes p []) u else dictGetD s.likes q []) := by
  unfold like_post at h
  by_cases hp : (dictGet s.posts p).isNone = true
  · rw [if_pos hp] at h; simp at h
  rw [if_neg hp] at h
  by_cases hu : (dictGet s.users u).isNone = true
  · rw [if_pos hu] at h; simp at h
  rw [if_neg hu] at h
  simp only [] at h
  by_cases hmem : u ∈ dictGetD s.likes p []
  · rw [if_pos hmem] at h; simp at h
  rw [if_neg hmem] at h
  rw [Prod.mk.injEq] at h
  obtain ⟨-, hs⟩ := h
  subst hs
  refine ⟨?_, ?_, hmem, rfl, rfl, rfl, rfl, rfl, rfl, rfl, ?_⟩
  · rcases ho : dictGet s.posts p with - | w
    · rw [ho] at hp; simp at hp
    · rfl
  · rcases ho : dictGet s.users u with - | w
    · rw [ho] at hu; simp at hu
    · rfl
  · intro q
    show dictGetD (dictSet (dictSetdefault s.likes p []) p
      (setAdd (dictGetD s.likes p []) u)) q [] = _
    rw [dictGetD_dictSet]
    by_cases hq : q = p
    · rw [if_pos hq, if_pos hq]
    · rw [if_neg hq, if_neg hq, dictGetD_setdefault_nil]

/-- C8: a repeated `follow(a,b)` with no intervening unfollow fails with
Conflict, a repeated `like(u,p)` fails with Conflict, `unfollow` of an absent
edge and `unlike` of an absent like fail with NotFound at the edge level, and
every one of those failures leaves the store unchanged. -/
theorem c8_duplicate_and_absent_edges :
    (∀ a b s s' r, follow_user a b s = (Except.ok r, s') →
      follow_user a b s' = (Except.error ⟨409, "Already following this user"⟩, s')) ∧
    (∀ p u s s' r, like_post p u s = (Except.ok r, s') →
      like_post p u s' = (Except.error ⟨409, "Post already liked by this user"⟩, s')) ∧
    (∀ a b s, (dictGet s.users a).isSome → (dictGet s.users b).isSome →
      b ∉ followingOf s a →
      unfollow_user a b s = (Except.error ⟨404, "Not following this user"⟩, s)) ∧
    (∀ p u s, (dictGet s.posts p).isSome → u ∉ dictGetD s.likes p [] →
      unlike_post p u s = (Except.error ⟨404, "Like not found"⟩, s)) := by
  refine ⟨?_, ?_, ?_, ?_⟩
  · intro a b s s' r h
    obtain ⟨hab, ha, hb, hmem, hus, -, -, -, -, -, hfwd, -⟩ :=
      follow_user_ok a b s s' r h
    refine follow_user_conflict a b s' hab ?_ ?_ ?_
    · rw [hus]; exact ha
    · rw [hus]; exact hb
    · rw [hfwd a, if_pos rfl]
      exact (mem_setAdd _ _ _).mpr (Or.inl rfl)
  · intro p u s s' r h
    obtain ⟨hp, hu, hmem, hus, hps, -, -, -, -, -, hlk⟩ := like_post_ok p u s s' r h
    refine like_post_conflict p u s' ?_ ?_ ?_
    · rw [hps]; exact hp
    · rw [hus]; exact hu
    · rw [hlk p, if_pos rfl]
      exact (mem_setAdd _ _ _).mpr (Or.inl rfl)
  · intro a b s ha hb hmem
    obtain ⟨ua, hua⟩ := Option.isSome_iff_exists.mp ha
    obtain ⟨ub, hub⟩ := Option.isSome_iff_exists.mp hb
    unfold unfollow_user
    rw [hua, hub]
    rw [if_neg (by simp), if_neg (by simp)]
    simp only []
    rw [if_pos (show b ∉ dictGetD s.follows a [] from hmem)]
  · intro p u s hp hmem
    obtain ⟨pp, hpp⟩ := Option.isSome_iff_exists.mp hp
    unfold unlike_post
    rw [hpp]
    rw [if_neg (by simp)]
    simp only []
    rw [if_pos (by simpa using hmem)]

/-- Witness for C8 at concrete inputs: duplicated and absent edges on
two-user stores. -/
theorem c8_duplicate_and_absent_edges_witness :
    follow_user "a" "b" (follow_user "a" "b" twoUserSt).2 =
      (Except.error ⟨409, "Already following this user"⟩,
        (follow_user "a" "b" twoUserSt).2) ∧
    unfollow_user "a" "b" twoUserSt =
      (Except.error ⟨404, "Not following this user"⟩, twoUserSt) ∧
    unlike_post "p1" "u1" demoS2 = (Except.error ⟨404, "Like not found"⟩, demoS2) ∧
    like_post "p1" "u1" (like_post "p1" "u1" demoS2).2 =
      (Except.error ⟨409, "Post already liked by this user"⟩,
        (like_post "p1" "u1" demoS2).2) :=
  ⟨c8_duplicate_and_absent_edges.1 "a" "b" twoUserSt _ () rfl,
   c8_duplicate_and_absent_edges.2.2.1 "a" "b" twoUserSt (by decide) (by decide)
     (by decide),
   c8_duplicate_and_absent_edges.2.2.2 "p1" "u1" demoS2 (by decide) (by decide),
   c8_duplicate_and_absent_edges.2.1 "p1" "u1" demoS2 _ () rfl⟩

-- ── C7 ───────────────────────────────────────────────────────────────────────

/-- The field-by-field overwrite `update_user` performs: only provided
(non-None) payload fields replace the stored values. -/
def applyUpdate (user : User) (payload : UserUpdate) : User :=
  let u1 := match payload.display_name with
            | some d => { user with display_name := d }
            | none => user
  let u2 := match payload.bio with
            | some b => { u1 with bio := b }
            | none => u1
  match payload.profile_pic_url with
  | some p => { u2 with profile_pic_url := p }
  | none => u2

theorem applyUpdate_fields (user : User) (payload : UserUpdate) :
    (applyUpdate user payload).id = user.id ∧
    (applyUpdate user payload).username = user.username ∧
    (applyUpdate user payload).created_at = user.created_at ∧
    (applyUpdate user payload).display_name =
      payload.display_name.getD user.display_name ∧
    (applyUpdate user payload).bio = payload.bio.getD user.bio ∧
    (applyUpdate user payload).profile_pic_url =
      payload.profile_pic_url.getD user.profile_pic_url := by
  obtain ⟨pd, pb, pp⟩ := payload
  cases pd <;> cases pb <;> cases pp <;> exact ⟨rfl, rfl, rfl, rfl, rfl, rfl⟩

theorem update_user_ok (user_id : String) (payload : UserUpdate) (s s' : St)
    (r : Unit) (h : update_user user_id payload s = (Except.ok r, s')) :
    ∃ user, dictGet s.users user_id = some user ∧
      s'.users = dictSet s.users user_id (applyUpdate user payload) ∧
      s'.posts = s.posts ∧ s'.follows = s.follows ∧ s'.followers = s.followers ∧
      s'.likes = s.likes ∧ s'.comments = s.comments ∧
      s'.post_comments = s.post_comments ∧ s'.hashtag_posts = s.hashtag_posts := by
  unfold update_user at h
  cases hg : dictGet s.users user_id with
  | none => rw [hg] at h; simp at h
  | some user =>
    rw [hg] at h
    rw [Prod.mk.injEq] at h
    obtain ⟨-, hs⟩ := h
    subst hs
    exact ⟨user, rfl, rfl, rfl, rfl, rfl, rfl, rfl, rfl, rfl⟩

/-- C7: `update_user` overwrites exactly the provided fields, keeps every
unspecified field, never changes id, handle or creation timestamp (and no
public operation changes those three after creation), leaves other users
untouched, and fails with NotFound on a missing id without changing
anything. -/
theorem c7_partial_update_frame :
    (∀ s uid u payload, dictGet s.users uid = some u →
      (update_user uid payload s).1 = Except.ok () ∧
      (∃ u', dictGet (update_user uid payload s).2.users uid = some u' ∧
        u'.display_name = payload.display_name.getD u.display_name ∧
        u'.bio = payload.bio.getD u.bio ∧
        u'.profile_pic_url = payload.profile_pic_url.getD u.profile_pic_url ∧
        u'.id = u.id ∧ u'.username = u.username ∧ u'.created_at = u.created_at) ∧
      (∀ v, v ≠ uid →
        dictGet (update_user uid payload s).2.users v = dictGet s.users v)) ∧
    (∀ s s', Step s s' → ∀ uid u, dictGet s.users uid = some u →
      ∃ u', dictGet s'.users uid = some u' ∧
        u'.id = u.id ∧ u'.username = u.username ∧ u'.created_at = u.created_at) ∧
    (∀ s uid payload, dictGet s.users uid = none →
      update_user uid payload s = (Except.error ⟨404, "User not found"⟩, s)) := by
  refine ⟨?_, ?_, ?_⟩
  · intro s uid u payload hu
    have hok : update_user uid payload s =
        (Except.ok (), { s with users := dictSet s.users uid (applyUpdate u payload) }) := by
      unfold update_user
      rw [hu]
      rfl
    rw [hok]
    obtain ⟨h1, h2, h3, h4, h5, h6⟩ := applyUpdate_fields u payload
    refine ⟨rfl, ⟨applyUpdate u payload, ?_, h4, h5, h6, h1, h2, h3⟩, ?_⟩
    · show dictGet (dictSet s.users uid (applyUpdate u payload)) uid = _
      rw [dictGet_dictSet, if_pos rfl]
    · intro v hv
      show dictGet (dictSet s.users uid (applyUpdate u payload)) v = _
      rw [dictGet_dictSet, if_neg hv]
  · intro s s' hstep uid u hu
    cases hstep with
    | createUser payload' uid' now hfresh =>
      cases hr : (create_user payload' uid' now s).1 with
      | error e =>
        rw [create_user_err payload' uid' now s e hr]
        exact ⟨u, hu, rfl, rfl, rfl⟩
      | ok r =>
        have h : create_user payload' uid' now s =
            (Except.ok r, (create_user payload' uid' now s).2) := by rw [← hr]
        obtain ⟨hus, -, -, -, -, -, -, -⟩ := create_user_ok _ _ _ _ _ r h
        have hne : ¬ uid = uid' := by
          intro he
          rw [he, hfresh] at hu
          exact Option.noConfusion hu
        refine ⟨u, ?_, rfl, rfl, rfl⟩
        rw [hus, dictGet_dictSet, if_neg hne]
        exact hu
    | updateUser user_id payload' =>
      cases hr : (update_user user_id payload' s).1 with
      | error e =>
        rw [update_user_err user_id payload' s e hr]
        exact ⟨u, hu, rfl, rfl, rfl⟩
      | ok r =>
        have h : update_user user_id payload' s =
            (Except.ok r, (update_user user_id payload' s).2) := by rw [← hr]
        obtain ⟨user, huser, hus, -, -, -, -, -, -, -⟩ := update_user_ok _ _ _ _ r h
        by_cases he : uid = user_id
        · rw [he] at hu
          rw [huser] at hu
          injection hu with he2
          obtain ⟨h1, h2, h3, -, -, -⟩ := applyUpdate_fields user payload'
          refine ⟨applyUpdate user payload', ?_, ?_, ?_, ?_⟩
          · rw [hus, dictGet_dictSet, if_pos he]
          · rw [h1, he2]
          · rw [h2, he2]
          · rw [h3, he2]
        · refine ⟨u, ?_, rfl, rfl, rfl⟩
          rw [hus, dictGet_dictSet, if_neg he]
          exact hu
    | createPost payload' pid now hfresh =>
      cases hr : (create_post payload' pid now s).1 with
      | error e =>
        rw [create_post_err payload' pid now s e hr]
        exact ⟨u, hu, rfl, rfl, rfl⟩
      | ok r =>
        have h : create_post payload' pid now s =
            (Except.ok r, (create_post payload' pid now s).2) := by rw [← hr]
        obtain ⟨-, hus, -, -, -, -, -, -, -⟩ := create_post_ok _ _ _ _ _ r h
        refine ⟨u, ?_, rfl, rfl, rfl⟩
        rw [hus]
        exact hu
    | deletePost pid =>
      cases hr : (delete_post pid s).1 with
      | error e =>
        rw [delete_post_err pid s e hr]
        exact ⟨u, hu, rfl, rfl, rfl⟩
      | ok r =>
        have h : delete_post pid s = (Except.ok r, (delete_post pid s).2) := by
          rw [← hr]
        obtain ⟨post, -, hus, -, -, -, -, -, -, -⟩ := delete_post_ok _ _ _ r h
        refine ⟨u, ?_, rfl, rfl, rfl⟩
        rw [hus]
        exact hu
    | followUser a b =>
      cases hr : (follow_user a b s).1 with
      | error e =>
        rw [follow_user_err a b s e hr]
        exact ⟨u, hu, rfl, rfl, rfl⟩
      | ok r =>
        have h : follow_user a b s = (Except.ok r, (follow_user a b s).2) := by
          rw [← hr]
        obtain ⟨-, -, -, -, hus, -, -, -, -, -, -, -⟩ := follow_user_ok a b s _ r h
        refine ⟨u, ?_, rfl, rfl, rfl⟩
        rw [hus]
        exact hu
    | unfollowUser a b =>
      cases hr : (unfollow_user a b s).1 with
      | error e =>
        rw [unfollow_user_err a b s e hr]
        exact ⟨u, hu, rfl, rfl, rfl⟩
      | ok r =>
        have h : unfollow_user a b s = (Except.ok r, (unfollow_user a b s).2) := by
          rw [← hr]
        obtain ⟨-, -, -, hus, -, -, -, -, -, -, -⟩ := unfollow_user_ok a b s _ r h
        refine ⟨u, ?_, rfl, rfl, rfl⟩
        rw [hus]
        exact hu
    | likePost p w =>
      obtain ⟨lk, hs⟩ := like_post_shape p w s
      rw [hs]
      exact ⟨u, hu, rfl, rfl, rfl⟩
    | unlikePost p w =>
      obtain ⟨lk, hs⟩ := unlike_post_shape p w s
      rw [hs]
      exact ⟨u, hu, rfl, rfl, rfl⟩
    | addComment pid payload' cid now hfresh =>
      cases hr : (add_comment pid payload' cid now s).1 with
      | error e =>
        rw [add_comment_err pid payload' cid now s e hr]
        exact ⟨u, hu, rfl, rfl, rfl⟩
      | ok r =>
        have h : add_comment pid payload' cid now s =
            (Except.ok r, (add_comment pid payload' cid now s).2) := by rw [← hr]
        obtain ⟨-, -, hus, -, -, -, -, -, -, -⟩ := add_comment_ok _ _ _ _ _ _ r h
        refine ⟨u, ?_, rfl, rfl, rfl⟩
        rw [hus]
        exact hu
    | deleteComment cid =>
      cases hr : (delete_comment cid s).1 with
      | error e =>
        rw [delete_comment_err cid s e hr]
        exact ⟨u, hu, rfl, rfl, rfl⟩
      | ok r =>
        have h : delete_comment cid s = (Except.ok r, (delete_comment cid s).2) := by
          rw [← hr]
        obtain ⟨cm0, -, hus, -, -, -, -, -, -, -⟩ := delete_comment_ok _ _ _ r h
        refine ⟨u, ?_, rfl, rfl, rfl⟩
        rw [hus]
        exact hu
  · intro s uid payload hnone
    unfold update_user
    rw [hnone]

/-- Witness for C7 at concrete inputs. -/
theorem c7_partial_update_frame_witness :
    ((update_user "a" ⟨some "N", none, none⟩ twoUserSt).1 = Except.ok () ∧
      (∃ u', dictGet (update_user "a" ⟨some "N", none, none⟩ twoUserSt).2.users "a" =
          some u' ∧
        u'.display_name = (some "N").getD (demoUser "a").display_name ∧
        u'.bio = Option.getD none (demoUser "a").bio ∧
        u'.profile_pic_url = Option.getD none (demoUser "a").profile_pic_url ∧
        u'.id = (demoUser "a").id ∧ u'.username = (demoUser "a").username ∧
        u'.created_at = (demoUser "a").created_at) ∧
      (∀ v, v ≠ "a" →
        dictGet (update_user "a" ⟨some "N", none, none⟩ twoUserSt).2.users v =
          dictGet twoUserSt.users v)) ∧
    (∃ u', dictGet (follow_user "a" "b" twoUserSt).2.users "a" = some u' ∧
      u'.id = (demoUser "a").id ∧ u'.username = (demoUser "a").username ∧
      u'.created_at = (demoUser "a").created_at) ∧
    update_user "z" ⟨none, none, none⟩ St.empty =
      (Except.error ⟨404, "User not found"⟩, St.empty) :=
  ⟨c7_partial_update_frame.1 twoUserSt "a" (demoUser "a") ⟨some "N", none, none⟩ rfl,
   c7_partial_update_frame.2.1 twoUserSt _ (Step.followUser twoUserSt "a" "b")
     "a" (demoUser "a") rfl,
   c7_partial_update_frame.2.2 St.empty "z" ⟨none, none, none⟩ rfl⟩

-- ── C2 ───────────────────────────────────────────────────────────────────────

/-- C2: in every reachable state holding post `p`, a successful
`delete_post(p)` makes `get_post(p)` fail NotFound, removes every comment
whose parent was `p` from the comment store, removes `p`'s comment-id
sequence and like-set, and leaves `p` in no tag's post-set. -/
theorem c2_cascade_delete (s : St) (hre : Reachable s) (p : String) (post : Post)
    (hp : dictGet s.posts p = some post) (s' : St) (r : Unit)
    (hdel : delete_post p s = (Except.ok r, s')) :
    get_post p s' = Except.error ⟨404, "Post not found"⟩ ∧
    (∀ c cm, dictGet s.comments c = some cm → cm.post_id = p →
      dictGet s'.comments c = none) ∧
    dictGet s'.post_comments p = none ∧
    dictGet s'.likes p = none ∧
    (∀ t, p ∉ tagPostsOf s' t) := by
  have hi := stInv_reachable hre
  obtain ⟨post2, hpost2, hus, hf, hg, hhp, hpc, hcm, hlk, hps⟩ :=
    delete_post_ok p s s' r hdel
  rw [hp] at hpost2
  injection hpost2 with hpe
  refine ⟨?_, ?_, ?_, ?_, ?_⟩
  · unfold get_post
    rw [hps, dictGet_dictPop, if_pos rfl]
  · intro c cm hcm2 hcpid
    rw [hcm, dictGet_foldl_dictPop]
    obtain ⟨seq, hseq, hcmem⟩ := hi.cmSeq c cm hcm2
    rw [hcpid] at hseq
    have hin : c ∈ dictGetD s.post_comments p [] := by
      unfold dictGetD
      rw [hseq]
      exact hcmem
    rw [if_pos hin]
  · rw [hpc, dictGet_dictPop, if_pos rfl]
  · rw [hlk, dictGet_dictPop, if_pos rfl]
  · intro t
    unfold tagPostsOf
    rw [hhp, mem_foldl_deindexTag]
    rintro ⟨hmem, himp⟩
    obtain ⟨post3, hpost3, htag⟩ := hi.tagMem t p hmem
    rw [hp] at hpost3
    injection hpost3 with hpe3
    rw [← hpe3] at htag
    rw [hpe] at htag
    exact himp htag rfl

/-- Witness for C2 on a concrete reachable store with one post, one comment,
one like and one hashtag. -/
theorem c2_cascade_delete_witness :
    get_post "p1" (delete_post "p1" demoS3).2 =
      Except.error ⟨404, "Post not found"⟩ ∧
    dictGet (delete_post "p1" demoS3).2.comments "c1" = none ∧
    dictGet (delete_post "p1" demoS3).2.post_comments "p1" = none ∧
    dictGet (delete_post "p1" demoS3).2.likes "p1" = none ∧
    "p1" ∉ tagPostsOf (delete_post "p1" demoS3).2 "fun" := by
  obtain ⟨h1, h2, h3, h4, h5⟩ :=
    c2_cascade_delete demoS3 demoReach3 "p1"
      (newPost demoPostPayload "p1" 1) (by decide)
      (delete_post "p1" demoS3).2 () rfl
  refine ⟨h1, ?_, h3, h4, h5 "fun"⟩
  exact h2 "c1" (newComment "p1" demoCommentPayload "c1" 2) (by decide) rfl

-- ── C4 ───────────────────────────────────────────────────────────────────────

theorem ble_le (m n : Nat) : Nat.ble m n = true ↔ m ≤ n := by
  rw [Nat.ble_eq]

/-- The non-empty (tag, count) pairs trending is computed from. -/
def trendingPairs (s : St) : List (String × Nat) :=
  s.hashtag_posts.filterMap
    (fun e => if e.2.isEmpty then none else some (e.1, e.2.length))

theorem explore_trending_eq (s : St) :
    explore_trending s =
      (sortBy (fun a b => Nat.ble b.2 a.2) (trendingPairs s)).take 10 := rfl

theorem mem_trendingPairs (s : St)
    (hkeys : (s.hashtag_posts.map Prod.fst).Nodup) (tc : String × Nat) :
    tc ∈ trendingPairs s ↔
      ∃ ps, dictGet s.hashtag_posts tc.1 = some ps ∧ ps ≠ [] ∧ tc.2 = ps.length := by
  unfold trendingPairs
  rw [List.mem_filterMap]
  constructor
  · rintro ⟨e, he, hf⟩
    cases hemp : e.2.isEmpty with
    | true => rw [if_pos hemp] at hf; exact Option.noConfusion hf
    | false =>
      rw [if_neg (by rw [hemp]; intro hc; exact Bool.noConfusion hc)] at hf
      injection hf with hf
      refine ⟨e.2, ?_, ?_, ?_⟩
      · rw [← hf]
        exact mem_dictGet s.hashtag_posts e.1 e.2 hkeys he
      · intro hnil
        rw [hnil] at hemp
        exact Bool.noConfusion hemp
      · rw [← hf]
  · rintro ⟨ps, hget, hne, hlen⟩
    refine ⟨(tc.1, ps), dictGet_mem s.hashtag_posts tc.1 ps hget, ?_⟩
    have hemp : ps.isEmpty = false := by
      cases ps with
      | nil => exact absurd rfl hne
      | cons x xs => rfl
    rw [if_neg (by rw [hemp]; intro hc; exact Bool.noConfusion hc)]
    show some (tc.1, ps.length) = some tc
    rw [← hlen]

/-- C4: trending returns exactly the (tag, size-of-post-set) pairs of the
tags with non-empty post-sets, sorted descending by count, truncated to the
10 largest; a tag key that persists with an empty post-set never appears. -/
theorem c4_trending_correct (s : St)
    (hkeys : (s.hashtag_posts.map Prod.fst).Nodup) :
    (∀ tc, tc ∈ explore_trending s →
      dictGet s.hashtag_posts tc.1 ≠ none ∧ tagPostsOf s tc.1 ≠ [] ∧
      tc.2 = (tagPostsOf s tc.1).length) ∧
    (explore_trending s).Pairwise (fun a b => b.2 ≤ a.2) ∧
    (explore_trending s).length ≤ 10 ∧
    (∀ t, dictGet s.hashtag_posts t = some [] →
      ∀ c, (t, c) ∉ explore_trending s) ∧
    ((trendingPairs s).length ≤ 10 →
      ∀ t ps, dictGet s.hashtag_posts t = some ps → ps ≠ [] →
        (t, ps.length) ∈ explore_trending s) ∧
    (∀ tc t ps, tc ∈ explore_trending s → dictGet s.hashtag_posts t = some ps →
      ps ≠ [] → (t, ps.length) ∉ explore_trending s → ps.length ≤ tc.2) := by
  have hperm := sortBy_perm (fun a b : String × Nat => Nat.ble b.2 a.2) (trendingPairs s)
  have hsorted := pairwise_sortBy (fun a b : String × Nat => Nat.ble b.2 a.2)
    (fun a b => by
      rcases Nat.le_total b.2 a.2 with h | h
      · exact Or.inl ((ble_le _ _).mpr h)
      · exact Or.inr ((ble_le _ _).mpr h))
    (fun a b c h1 h2 =>
      (ble_le _ _).mpr (Nat.le_trans ((ble_le _ _).mp h2) ((ble_le _ _).mp h1)))
    (trendingPairs s)
  have hmemchar : ∀ tc, tc ∈ explore_trending s →
      ∃ ps, dictGet s.hashtag_posts tc.1 = some ps ∧ ps ≠ [] ∧ tc.2 = ps.length := by
    intro tc htc
    rw [explore_trending_eq] at htc
    have h1 : tc ∈ sortBy (fun a b => Nat.ble b.2 a.2) (trendingPairs s) :=
      List.take_subset 10 _ htc
    exact (mem_trendingPairs s hkeys tc).mp (hperm.mem_iff.mp h1)
  refine ⟨?_, ?_, ?_, ?_, ?_, ?_⟩
  · intro tc htc
    obtain ⟨ps, hget, hne, hlen⟩ := hmemchar tc htc
    refine ⟨by rw [hget]; exact fun hc => Option.noConfusion hc, ?_, ?_⟩
    · unfold tagPostsOf dictGetD
      rw [hget]
      exact hne
    · unfold tagPostsOf dictGetD
      rw [hget]
      exact hlen
  · rw [explore_trending_eq]
    exact (hsorted.sublist (List.take_sublist 10 _)).imp
      (fun h => (ble_le _ _).mp h)
  · rw [explore_trending_eq]
    rw [List.length_take]
    exact Nat.min_le_left 10 _
  · intro t hsome c hin
    obtain ⟨ps, hget, hne, -⟩ := hmemchar (t, c) hin
    rw [hsome] at hget
    injection hget with hget
    exact hne hget.symm
  · intro hlen t ps hget hne
    rw [explore_trending_eq]
    have hlen2 : (sortBy (fun a b => Nat.ble b.2 a.2) (trendingPairs s)).length ≤ 10 := by
      rw [hperm.length_eq]
      exact hlen
    rw [List.take_of_length_le hlen2]
    refine hperm.mem_iff.mpr ?_
    exact (mem_trendingPairs s hkeys (t, ps.length)).mpr ⟨ps, hget, hne, rfl⟩
  · intro tc t ps htc hget hne hnotin
    have hmemsrt : (t, ps.length) ∈ sortBy (fun a b => Nat.ble b.2 a.2) (trendingPairs s) :=
      hperm.mem_iff.mpr ((mem_trendingPairs s hkeys (t, ps.length)).mpr ⟨ps, hget, hne, rfl⟩)
    rw [explore_trending_eq] at htc hnotin
    have hsplit := List.take_append_drop 10
      (sortBy (fun a b => Nat.ble b.2 a.2) (trendingPairs s))
    have hdrop : (t, ps.length) ∈
        (sortBy (fun a b => Nat.ble b.2 a.2) (trendingPairs s)).drop 10 := by
      rw [← hsplit] at hmemsrt
      rcases List.mem_append.mp hmemsrt with h | h
      · exact absurd h hnotin
      · exact h
    have hpw := hsorted
    rw [← hsplit, List.pairwise_append] at hpw
    exact (ble_le _ _).mp (hpw.2.2 tc htc (t, ps.length) hdrop)

/-- Witness for C4 on a concrete store whose hashtag index has one non-empty
tag and one persisted empty-set key (as left behind by `delete_post`). -/
theorem c4_trending_correct_witness :
    (("fun", 1) ∈ explore_trending demoS2 →
      dictGet demoS2.hashtag_posts "fun" ≠ none ∧
      tagPostsOf demoS2 "fun" ≠ [] ∧
      1 = (tagPostsOf demoS2 "fun").length) ∧
    (explore_trending (delete_post "p1" demoS2).2).Pairwise
      (fun a b => b.2 ≤ a.2) ∧
    (∀ c, ("fun", c) ∉ explore_trending (delete_post "p1" demoS2).2) :=
  ⟨fun hm => (c4_trending_correct demoS2 (by decide)).1 ("fun", 1) hm,
   (c4_trending_correct (delete_post "p1" demoS2).2 (by decide)).2.1,
   fun c => (c4_trending_correct (delete_post "p1" demoS2).2 (by decide)).2.2.2.1
     "fun" (by decide) c⟩

-- ── C5 ───────────────────────────────────────────────────────────────────────

def c5Payload : PostCreate :=
  ⟨"u1", "m.jpg", MediaType.image, "Check #Python #PYTHON #python"⟩

def c5S1 : St := (create_post c5Payload "p1" 1 demoS1).2

/-- C5 counterexample: one post whose caption repeats the tag in three
casings produces a trending count of 1 (the post-set is a set of post ids),
not 3 as the claim states. -/
theorem c5_normalization_counterexample :
    (create_post c5Payload "p1" 1 demoS1).1 = Except.ok () ∧
    ("python", 3) ∉ explore_trending c5S1 ∧
    explore_trending c5S1 = [("python", 1)] :=
  ⟨rfl, by decide, by decide⟩

/-- C5 (amended): starting from a state with an existing author and no other
posts, creating a post whose caption contains `#Python`, `#PYTHON` and
`#python` yields the trending entry ("python", 1) — one entry per POST, not
per occurrence — and `explore_by_hashtag` with any casing of "python"
returns exactly that post. -/
theorem c5_normalization_amended (s : St) (uid : String) (u : User)
    (media : String) (mt : MediaType) (now : Nat)
    (hu : dictGet s.users uid = some u) (hposts : s.posts = [])
    (htags : s.hashtag_posts = []) :
    (create_post ⟨uid, media, mt, "Check #Python #PYTHON #python"⟩ "p1" now s).1 =
      Except.ok () ∧
    explore_trending
      (create_post ⟨uid, media, mt, "Check #Python #PYTHON #python"⟩ "p1" now s).2 =
      [("python", 1)] ∧
    (∀ t, lowerStr t = "python" →
      explore_by_hashtag t
        (create_post ⟨uid, media, mt, "Check #Python #PYTHON #python"⟩ "p1" now s).2 =
        [newPost ⟨uid, media, mt, "Check #Python #PYTHON #python"⟩ "p1" now]) := by
  have hok : (create_post ⟨uid, media, mt, "Check #Python #PYTHON #python"⟩
      "p1" now s).1 = Except.ok () := by
    unfold create_post
    rw [hu]
    rfl
  cases hres : create_post ⟨uid, media, mt, "Check #Python #PYTHON #python"⟩ "p1" now s with
  | mk r1 s' =>
    have hr1 : r1 = Except.ok () := by rw [← hok, hres]
    obtain ⟨-, -, -, -, -, hps, -, -, hhp⟩ :=
      create_post_ok ⟨uid, media, mt, "Check #Python #PYTHON #python"⟩ "p1" now s s' ()
        (by rw [hres, hr1])
    have hex : extract_hashtags "Check #Python #PYTHON #python" =
        ["python", "python", "python"] := by decide
    have hhp' : s'.hashtag_posts = [("python", ["p1"])] := by
      rw [hhp, htags, hex]
      decide
    have hps' : s'.posts = [("p1",
        newPost ⟨uid, media, mt, "Check #Python #PYTHON #python"⟩ "p1" now)] := by
      rw [hps, hposts]
      rfl
    refine ⟨hr1, ?_, ?_⟩
    · show (sortBy (fun a b => Nat.ble b.2 a.2)
        (s'.hashtag_posts.filterMap
          (fun e => if e.2.isEmpty then none else some (e.1, e.2.length)))).take 10 =
        [("python", 1)]
      rw [hhp']
      decide
    · intro t hlow
      show sortPostsDesc
        ((dictGetD s'.hashtag_posts (lowerStr t) []).filterMap
          (fun pid => dictGet s'.posts pid)) = _
      rw [hlow, hhp', hps']
      rfl

/-- Witness for C5's amended theorem at a fully concrete input. -/
theorem c5_normalization_amended_witness :
    (create_post ⟨"u1", "m.jpg", MediaType.image, "Check #Python #PYTHON #python"⟩
        "p1" 1 demoS1).1 = Except.ok () ∧
    explore_trending
      (create_post ⟨"u1", "m.jpg", MediaType.image, "Check #Python #PYTHON #python"⟩
        "p1" 1 demoS1).2 = [("python", 1)] ∧
    (∀ t, lowerStr t = "python" →
      explore_by_hashtag t
        (create_post ⟨"u1", "m.jpg", MediaType.image, "Check #Python #PYTHON #python"⟩
          "p1" 1 demoS1).2 =
        [newPost ⟨"u1", "m.jpg", MediaType.image, "Check #Python #PYTHON #python"⟩
          "p1" 1]) :=
  c5_normalization_amended demoS1 "u1" (newUser demoUserPayload "u1" 0)
    "m.jpg" MediaType.image 1 rfl rfl rfl

-- ── C6 ───────────────────────────────────────────────────────────────────────

/-- A bare stored post, for concrete feed scenarios. -/
def plainPost (pid uid : String) (t : Nat) : Post :=
  { id := pid, user_id := uid, media_url := "m", media_type := MediaType.image,
    caption := "", hashtags := [], created_at := t }

/-- A store in which user "u" follows themself — `get_feed` has no own-post
filter, so the user's own post appears in their feed. -/
def c6BadSt : St :=
  { users := [("u", demoUser "u")], posts := [("p", plainPost "p" "u" 0)],
    follows := [("u", ["u"])], followers := [("u", ["u"])],
    likes := [], comments := [], post_comments := [], hashtag_posts := [] }

/-- C6 counterexample: in a state where "u" follows themself (unreachable via
the public operations, but a state), the feed of the existing user "u"
contains a post authored by "u" — the own-post exclusion of the claim is not
unconditional in the code, it only follows from the self-follow rejection. -/
theorem c6_feed_exclusion_counterexample :
    dictGet c6BadSt.users "u" = some (demoUser "u") ∧
    get_feed "u" c6BadSt = Except.ok [plainPost "p" "u" 0] ∧
    (plainPost "p" "u" 0).user_id = "u" :=
  ⟨rfl, rfl, rfl⟩

/-- C6 (amended): no reachable state has a self-follow edge; for every
existing user in any state, the feed succeeds and is exactly the posts whose
author is followed, newest-first, it contains no own post whenever the user
does not follow themself (hence in every reachable state), and an empty
following set yields the empty list; a missing user yields NotFound. -/
theorem c6_feed_content_amended :
    (∀ s, Reachable s → ∀ x, x ∉ followingOf s x) ∧
    (∀ s uid u, dictGet s.users uid = some u →
      ∃ l, get_feed uid s = Except.ok l ∧
        l.Perm ((s.posts.map Prod.snd).filter
          (fun p => decide (p.user_id ∈ followingOf s uid))) ∧
        l.Pairwise (fun a b => b.created_at ≤ a.created_at) ∧
        (uid ∉ followingOf s uid → ∀ p ∈ l, p.user_id ≠ uid) ∧
        (followingOf s uid = [] → l = [])) ∧
    (∀ s uid, dictGet s.users uid = none →
      get_feed uid s = Except.error ⟨404, "User not found"⟩) := by
  refine ⟨?_, ?_, ?_⟩
  · intro s hre x
    exact (stInv_reachable hre).noSelf x
  · intro s uid u hu
    unfold get_feed
    rw [hu]
    rw [if_neg (by simp)]
    simp only []
    by_cases hemp : (dictGetD s.follows uid []).isEmpty = true
    · rw [if_pos hemp]
      have hnil : dictGetD s.follows uid [] = [] := List.isEmpty_iff.mp hemp
      refine ⟨[], rfl, ?_, List.Pairwise.nil, ?_, fun _ => rfl⟩
      · have hfil : (s.posts.map Prod.snd).filter
            (fun p => decide (p.user_id ∈ followingOf s uid)) = [] := by
          apply List.filter_eq_nil_iff.mpr
          intro p hp
          show ¬ decide (p.user_id ∈ followingOf s uid) = true
          unfold followingOf
          rw [hnil]
          simp
        rw [hfil]
      · intro hno p hp
        exact absurd hp (List.not_mem_nil p)
    · rw [if_neg hemp]
      refine ⟨_, rfl, ?_, ?_, ?_, ?_⟩
      · exact sortBy_perm _ _
      · have hpw := pairwise_sortBy (fun a b : Post => Nat.ble b.created_at a.created_at)
          (fun a b => by
            rcases Nat.le_total b.created_at a.created_at with h | h
            · exact Or.inl ((ble_le _ _).mpr h)
            · exact Or.inr ((ble_le _ _).mpr h))
          (fun a b c h1 h2 =>
            (ble_le _ _).mpr
              (Nat.le_trans ((ble_le _ _).mp h2) ((ble_le _ _).mp h1)))
          ((s.posts.map Prod.snd).filter
            (fun p => decide (p.user_id ∈ dictGetD s.follows uid [])))
        exact hpw.imp (fun h => (ble_le _ _).mp h)
      · intro hno p hp
        have hp2 : p ∈ (s.posts.map Prod.snd).filter
            (fun q => decide (q.user_id ∈ dictGetD s.follows uid [])) :=
          (sortBy_perm _ _).mem_iff.mp hp
        have hmem : p.user_id ∈ dictGetD s.follows uid [] := by
          have := List.of_mem_filter hp2
          simpa using this
        intro hpe
        rw [hpe] at hmem
        exact hno hmem
      · intro hnil
        rw [show followingOf s uid = dictGetD s.follows uid [] from rfl] at hnil
        rw [hnil] at hemp
        exact absurd rfl hemp
  · intro s uid hnone
    unfold get_feed
    rw [hnone]
    rfl

/-- A store in which user "U" (own later-timestamped post "P1") follows "V"
(post "P2"). -/
def c6GoodSt : St :=
  { users := [("U", demoUser "U"), ("V", demoUser "V")],
    posts := [("P1", plainPost "P1" "U" 5), ("P2", plainPost "P2" "V" 3)],
    follows := [("U", ["V"]), ("V", [])],
    followers := [("U", []), ("V", ["U"])],
    likes := [], comments := [], post_comments := [], hashtag_posts := [] }

/-- Witness for C6's amended theorem. -/
theorem c6_feed_content_amended_witness :
    ("w" ∉ followingOf St.empty "w") ∧
    (∃ l, get_feed "U" c6GoodSt = Except.ok l ∧
      l.Perm ((c6GoodSt.posts.map Prod.snd).filter
        (fun p => decide (p.user_id ∈ followingOf c6GoodSt "U"))) ∧
      l.Pairwise (fun a b => b.created_at ≤ a.created_at) ∧
      ("U" ∉ followingOf c6GoodSt "U" → ∀ p ∈ l, p.user_id ≠ "U") ∧
      (followingOf c6GoodSt "U" = [] → l = [])) ∧
    get_feed "z" St.empty = Except.error ⟨404, "User not found"⟩ :=
  ⟨c6_feed_content_amended.1 St.empty Reachable.init "w",
   c6_feed_content_amended.2.1 c6GoodSt "U" (demoUser "U") rfl,
   c6_feed_content_amended.2.2 St.empty "z" rfl⟩

-- ── C9 ───────────────────────────────────────────────────────────────────────

theorem filterMap_resolve_map_id (cmstore : List (String × Comment)) :
    ∀ seq : List String,
      (∀ c ∈ seq, ∃ cm, dictGet cmstore c = some cm ∧ cm.id = c) →
      (seq.filterMap (fun c => dictGet cmstore c)).map Comment.id = seq := by
  intro seq
  induction seq with
  | nil => intro _; rfl
  | cons c cs ih =>
    intro hall
    obtain ⟨cm, hg, hid⟩ := hall c (List.mem_cons_self c cs)
    rw [List.filterMap_cons, hg, List.map_cons, hid,
      ih (fun c' hc' => hall c' (List.mem_cons_of_mem c hc'))]

/-- C9: in every reachable state, every existing post's comment-id sequence
contains exactly the ids of the existing comments on it, without duplicates;
`add_comment` appends the new id at the end (creation order), `get_comments`
returns the comments in exactly that sequence order, and `delete_comment`
removes exactly the deleted id, preserving the relative order of the rest. -/
theorem c9_comment_sequence :
    (∀ s, Reachable s → ∀ p post, dictGet s.posts p = some post →
      (commentSeqOf s p).Nodup ∧
      (∀ c, c ∈ commentSeqOf s p ↔
        ∃ cm, dictGet s.comments c = some cm ∧ cm.post_id = p)) ∧
    (∀ s pid payload cid now s' r,
      add_comment pid payload cid now s = (Except.ok r, s') →
      commentSeqOf s' pid = commentSeqOf s pid ++ [cid]) ∧
    (∀ s, Reachable s → ∀ p post, dictGet s.posts p = some post →
      ∃ l, get_comments p s = Except.ok l ∧ l.map Comment.id = commentSeqOf s p) ∧
    (∀ s, Reachable s → ∀ cid cm s' r, dictGet s.comments cid = some cm →
      delete_comment cid s = (Except.ok r, s') →
      commentSeqOf s' cm.post_id =
        (commentSeqOf s cm.post_id).filter (fun x => x != cid) ∧
      (∀ q, q ≠ cm.post_id →
        dictGet s'.post_comments q = dictGet s.post_comments q)) := by
  refine ⟨?_, ?_, ?_, ?_⟩
  · intro s hre p post hp
    have hi := stInv_reachable hre
    constructor
    · unfold commentSeqOf dictGetD
      cases hg : dictGet s.post_comments p with
      | none => exact List.nodup_nil
      | some seq => exact hi.seqNodup p seq hg
    · intro c
      constructor
      · intro hc
        obtain ⟨seq, hseq⟩ := exists_some_of_mem_getD s.post_comments p c hc
        have hc2 : c ∈ seq := by
          unfold commentSeqOf dictGetD at hc
          rw [hseq] at hc
          exact hc
        obtain ⟨cm, hcm, hpid, -⟩ := hi.seqMem p seq c hseq hc2
        exact ⟨cm, hcm, hpid⟩
      · rintro ⟨cm, hcm, hpid⟩
        obtain ⟨seq, hseq, hcmem⟩ := hi.cmSeq c cm hcm
        rw [hpid] at hseq
        unfold commentSeqOf dictGetD
        rw [hseq]
        exact hcmem
  · intro s pid payload cid now s' r h
    obtain ⟨-, -, -, -, -, -, -, -, -, hpc⟩ :=
      add_comment_ok pid payload cid now s s' r h
    unfold commentSeqOf
    rw [hpc, dictGetD_dictAppendToList, if_pos rfl]
  · intro s hre p post hp
    have hi := stInv_reachable hre
    unfold get_comments
    rw [hp]
    rw [if_neg (by simp)]
    refine ⟨_, rfl, ?_⟩
    refine filterMap_resolve_map_id s.comments (dictGetD s.post_comments p []) ?_
    intro c hc
    obtain ⟨seq, hseq⟩ := exists_some_of_mem_getD s.post_comments p c hc
    have hc2 : c ∈ seq := by
      unfold dictGetD at hc
      rw [hseq] at hc
      exact hc
    obtain ⟨cm, hcm, -, hid⟩ := hi.seqMem p seq c hseq hc2
    exact ⟨cm, hcm, hid⟩
  · intro s hre cid cm s' r hcm hdel
    have hi := stInv_reachable hre
    obtain ⟨cm0, hg0, -, -, -, -, -, -, -, hpc⟩ := delete_comment_ok cid s s' r hdel
    rw [hcm] at hg0
    injection hg0 with hcme
    obtain ⟨seq, hseq, hcmem⟩ := hi.cmSeq cid cm hcm
    have hlst : dictGetD s.post_comments cm0.post_id [] = seq := by
      unfold dictGetD
      rw [← hcme, hseq]
      rfl
    have hin : cid ∈ dictGetD s.post_comments cm0.post_id [] := by
      rw [hlst]
      exact hcmem
    rw [if_pos hin] at hpc
    have hnn : seq.Nodup := hi.seqNodup cm.post_id seq hseq
    constructor
    · unfold commentSeqOf
      rw [hpc, dictGetD_dictSet, if_pos (by rw [hcme]), hlst]
      have hgoal : dictGetD s.post_comments cm.post_id [] = seq := by
        unfold dictGetD
        rw [hseq]
        rfl
      rw [hgoal]
      exact hnn.erase_eq_filter cid
    · intro q hq
      rw [hpc, dictGet_dictSet, if_neg (by rw [← hcme]; exact hq)]

/-- Witness for C9 on the concrete reachable store with post "p1" and
comment "c1". -/
theorem c9_comment_sequence_witness :
    ((commentSeqOf demoS3 "p1").Nodup ∧
      (∀ c, c ∈ commentSeqOf demoS3 "p1" ↔
        ∃ cm, dictGet demoS3.comments c = some cm ∧ cm.post_id = "p1")) ∧
    commentSeqOf demoS3 "p1" = commentSeqOf demoS2 "p1" ++ ["c1"] ∧
    (∃ l, get_comments "p1" demoS3 = Except.ok l ∧
      l.map Comment.id = commentSeqOf demoS3 "p1") ∧
    commentSeqOf (delete_comment "c1" demoS3).2
        (newComment "p1" demoCommentPayload "c1" 2).post_id =
      (commentSeqOf demoS3
        (newComment "p1" demoCommentPayload "c1" 2).post_id).filter
        (fun x => x != "c1") :=
  ⟨c9_comment_sequence.1 demoS3 demoReach3 "p1" (newPost demoPostPayload "p1" 1)
     (by decide),
   c9_comment_sequence.2.1 demoS2 "p1" demoCommentPayload "c1" 2 demoS3 () rfl,
   c9_comment_sequence.2.2.1 demoS3 demoReach3 "p1"
     (newPost demoPostPayload "p1" 1) (by decide),
   (c9_comment_sequence.2.2.2 demoS3 demoReach3 "c1"
     (newComment "p1" demoCommentPayload "c1" 2) (delete_comment "c1" demoS3).2 ()
     (by decide) rfl).1⟩

-- ── C10 ──────────────────────────────────────────────────────────────────────

theorem count_setAdd (l : List String) (x : String) :
    (setAdd l x).count x = if x ∈ l then l.count x else l.count x + 1 := by
  unfold setAdd
  by_cases h : x ∈ l
  · rw [if_pos h, if_pos h]
  · rw [if_neg h, if_neg h, List.count_append]
    simp

theorem count_foldl_dictAddToSet (pid : String) (tags : List String) :
    ∀ (h : List (String × List String)) (t : String),
      (dictGetD h t []).count pid ≤ 1 →
      (dictGetD (tags.foldl (fun h' t' => dictAddToSet h' t' pid) h) t []).count pid =
        if t ∈ tags ∨ pid ∈ dictGetD h t [] then 1 else 0 := by
  induction tags with
  | nil =>
    intro h t hle
    rw [List.foldl_nil]
    by_cases hm : pid ∈ dictGetD h t []
    · rw [if_pos (Or.inr hm)]
      have h1 : 0 < (dictGetD h t []).count pid := List.count_pos_iff.mpr hm
      omega
    · rw [if_neg ?_]
      · exact List.count_eq_zero.mpr hm
      · rintro (hh | hh)
        · exact List.not_mem_nil t hh
        · exact hm hh
  | cons t0 rest ih =>
    intro h t hle
    rw [List.foldl_cons]
    have hle' : (dictGetD (dictAddToSet h t0 pid) t []).count pid ≤ 1 := by
      rw [dictGetD_dictAddToSet]
      by_cases ht : t = t0
      · rw [if_pos ht, count_setAdd]
        by_cases hm : pid ∈ dictGetD h t0 []
        · rw [if_pos hm]
          rw [ht] at hle
          exact hle
        · rw [if_neg hm]
          have h0 : (dictGetD h t0 []).count pid = 0 := List.count_eq_zero.mpr hm
          omega
      · rw [if_neg ht]; exact hle
    rw [ih (dictAddToSet h t0 pid) t hle']
    rw [dictGetD_dictAddToSet]
    by_cases ht : t = t0
    · rw [if_pos ht]
      rw [if_pos (Or.inr ((mem_setAdd _ _ _).mpr (Or.inl rfl)))]
      rw [if_pos (Or.inl (ht ▸ List.mem_cons_self t0 rest))]
    · rw [if_neg ht]
      by_cases hc : t ∈ rest ∨ pid ∈ dictGetD h t []
      · rw [if_pos hc]
        rcases hc with hc | hc
        · rw [if_pos (Or.inl (List.mem_cons_of_mem t0 hc))]
        · rw [if_pos (Or.inr hc)]
      · rw [if_neg hc]
        rw [if_neg ?_]
        rintro (hh | hh)
        · rcases List.mem_cons.mp hh with rfl | hh2
          · exact ht rfl
          · exact hc (Or.inl hh2)
        · exact hc (Or.inr hh)

/-- C10: reachable tag post-sets are duplicate-free, a fresh post id is in no
tag's post-set, and creating a post whose caption repeats a tag stores one
lowercase hashtag entry per occurrence while each tag's post-set gains the
post id exactly once — so trending counts an existing post at most once per
tag. -/
theorem c10_hashtag_dedup :
    (∀ s, Reachable s → ∀ t, (tagPostsOf s t).Nodup) ∧
    (∀ s, Reachable s → ∀ pid, dictGet s.posts pid = none →
      ∀ t, pid ∉ tagPostsOf s t) ∧
    (∀ s payload pid now s' r, (∀ t, pid ∉ tagPostsOf s t) →
      create_post payload pid now s = (Except.ok r, s') →
      ∃ post, dictGet s'.posts pid = some post ∧
        post.hashtags = extract_hashtags payload.caption ∧
        (∀ t, (tagPostsOf s' t).count pid =
          if t ∈ post.hashtags then 1 else 0)) := by
  refine ⟨?_, ?_, ?_⟩
  · intro s hre t
    exact (stInv_reachable hre).tagNodup t
  · intro s hre pid hnone t hmem
    obtain ⟨post, hpost, -⟩ := (stInv_reachable hre).tagMem t pid hmem
    rw [hnone] at hpost
    exact Option.noConfusion hpost
  · intro s payload pid now s' r hfresh h
    obtain ⟨-, -, -, -, -, hps, -, -, hhp⟩ := create_post_ok payload pid now s s' r h
    refine ⟨newPost payload pid now, ?_, rfl, ?_⟩
    · rw [hps, dictGet_dictSet, if_pos rfl]
    · intro t
      unfold tagPostsOf
      rw [hhp]
      have hle : (dictGetD s.hashtag_posts t []).count pid ≤ 1 := by
        have h0 : (dictGetD s.hashtag_posts t []).count pid = 0 :=
          List.count_eq_zero.mpr (hfresh t)
        omega
      rw [count_foldl_dictAddToSet pid (extract_hashtags payload.caption)
        s.hashtag_posts t hle]
      by_cases ht : t ∈ extract_hashtags payload.caption
      · rw [if_pos (Or.inl ht),
          if_pos (show t ∈ (newPost payload pid now).hashtags from ht)]
      · rw [if_neg ?_, if_neg (show ¬ t ∈ (newPost payload pid now).hashtags from ht)]
        rintro (hh | hh)
        · exact ht hh
        · exact hfresh t hh

/-- Witness for C10: the repeated-casing caption scenario. -/
theorem c10_hashtag_dedup_witness :
    (tagPostsOf demoS3 "fun").Nodup ∧
    (∀ t, "p9" ∉ tagPostsOf demoS3 t) ∧
    (∃ post, dictGet c5S1.posts "p1" = some post ∧
      post.hashtags = extract_hashtags c5Payload.caption ∧
      (∀ t, (tagPostsOf c5S1 t).count "p1" =
        if t ∈ post.hashtags then 1 else 0)) :=
  ⟨c10_hashtag_dedup.1 demoS3 demoReach3 "fun",
   c10_hashtag_dedup.2.1 demoS3 demoReach3 "p9" (by decide),
   c10_hashtag_dedup.2.2 demoS1 c5Payload "p1" 1 c5S1 ()
     (fun t => by
       rw [show tagPostsOf demoS1 t = [] from rfl]
       exact List.not_mem_nil "p1")
     rfl⟩
